import Mathlib

/-!
# tipee-sa/human : a shallow embedding of the renderer

The Go package renders arbitrary values as text by reflection.  The embedding
keeps the control flow of `renderer.go`, `human.go` and `types.go` and replaces

* `reflect.Type` / `reflect.Value` by the inductive types `GoType` / `Value`,
* the `io.Writer` held by a `Renderer` by an explicit `Sink` state,
* methods supplied by the caller (`RenderHuman`, `String`, registered render
  functions) by write programs (`Prog`) looked up in an environment `Env`,
* external libraries (tablewriter, encoding/json, yaml.v3, fmt) by fields of
  `Env`,
* recursion by a fuel argument; the outcome `outOfFuel` marks exhausted fuel.
-/

namespace Human

/-! ## Errors and outcomes -/

/-- Go `error` values: a message, possibly wrapping another error (`%w`). -/
inductive GoError where
  | new (msg : String)
  | wrap (msg : String) (inner : GoError)
deriving DecidableEq, Repr

/-- How a call ends: `nil` error, a returned error, a runtime panic, or the
model ran out of fuel. -/
inductive Outcome where
  | ok
  | error (e : GoError)
  | panic (msg : String)
  | outOfFuel
deriving DecidableEq, Repr

/-! ## The output sink (`io.Writer`) -/

/-- An `io.Writer`: the bytes accepted so far and the rule deciding, from
those bytes and the next chunk, whether the next `Write` fails. -/
structure Sink where
  buf : String
  fail : String → String → Option GoError

/-- One call of `w.Write(p)`: on success the chunk is appended. -/
def Sink.Write (w : Sink) (p : String) : Sink × Option GoError :=
  match w.fail w.buf p with
  | none => ({ w with buf := w.buf ++ p }, none)
  | some e => (w, some e)

/-- A fresh `bytes.Buffer`: empty, and `Write` never fails. -/
def Buffer : Sink := { buf := "", fail := fun _ _ => none }

/-- Conversion of a Go `error` result (nil or not) to an outcome. -/
def Outcome.ofErr : Option GoError → Outcome
  | none => .ok
  | some e => .error e

/-- A caller-supplied function of shape `func(io.Writer, ...) error`: it may
write chunks, see each write's error, and finally return or panic. -/
inductive Prog where
  | ret (err : Option GoError)
  | panic (msg : String)
  | write (p : String) (next : Option GoError → Prog)

/-- Execution of a write program against a sink. -/
def Prog.run : Prog → Sink → Sink × Outcome
  | .ret err, w => (w, Outcome.ofErr err)
  | .panic msg, w => (w, .panic msg)
  | .write p next, w => (next (w.Write p).2).run (w.Write p).1

/-! ## Types (`reflect.Type`) -/

/-- The kinds of `reflect.Kind`. -/
inductive Kind where
  | Invalid | Bool | Int | Int8 | Int16 | Int32 | Int64
  | Uint | Uint8 | Uint16 | Uint32 | Uint64 | Uintptr
  | Float32 | Float64 | Complex64 | Complex128
  | Array | Chan | Func | Interface | Map | Ptr | Slice | String | Struct
  | UnsafePointer
deriving DecidableEq, Repr

/-- A struct tag, already split into its `key:"value"` pairs. -/
abbrev StructTag := List (String × String)

/-- Lookup `tag.Get(key)`: the value of the key, or the empty string. -/
def StructTag.Get (tag : StructTag) (key : String) : String :=
  match tag.find? (fun kv => kv.1 == key) with
  | some kv => kv.2
  | none => ""

/-- The declared type of a struct field; the renderer inspects its kind only. -/
structure FieldType where
  Kind : Kind
deriving DecidableEq, Repr

/-- A field descriptor, as in `reflect.StructField`. -/
structure StructField where
  Name : String
  PkgPath : String
  Type_ : FieldType
  Tag : StructTag
deriving DecidableEq, Repr

/-- Exported fields have an empty package path (`reflect.StructField.IsExported`). -/
def StructField.IsExported (f : StructField) : Bool := f.PkgPath == ""

/-- A Go type: its name (empty when unnamed), its kind, and either its fields
(struct types; empty otherwise) or its element type (pointer, slice, ...). -/
inductive GoType where
  | plain (name : String) (kind : Kind) (fields : List StructField)
  | composite (name : String) (kind : Kind) (elem : GoType)
deriving DecidableEq, Repr

def GoType.Kind : GoType → Kind
  | .plain _ k _ => k
  | .composite _ k _ => k

/-- Element type `t.Elem()`; `none` stands for the panic of a type without one. -/
def GoType.Elem : GoType → Option GoType
  | .plain _ _ _ => none
  | .composite _ _ e => some e

def GoType.fields : GoType → List StructField
  | .plain _ _ fs => fs
  | .composite _ _ _ => []

def GoType.NumField (t : GoType) : Nat := t.fields.length

/-- The predeclared type `string`. -/
def stringType : GoType := .plain "string" .String []

/-- The loop `for elem.Kind() == reflect.Ptr { elem = elem.Elem() }` on types. -/
def unwrapPtrType : GoType → Option GoType
  | .plain n k fs => if k = Kind.Ptr then none else some (.plain n k fs)
  | .composite n k e => if k = Kind.Ptr then unwrapPtrType e else some (.composite n k e)

/-! ## Values (`reflect.Value`, `any`) -/

/-- A Go value together with its type.  `other` covers the kinds the renderer
never looks into (floats, complex numbers, arrays, maps, channels, functions,
unsafe pointers); `isNil` is their nil-ness. -/
inductive Value where
  | bool (t : GoType) (b : Bool)
  | int (t : GoType) (i : Int)
  | string (t : GoType) (s : String)
  | pointer (t : GoType) (elem : Option Value)
  | slice (t : GoType) (elems : Option (List Value))
  | struct (t : GoType) (fields : List Value)
  | iface (t : GoType) (dyn : Option Value)
  | other (t : GoType) (isNil : Bool) (id : Nat)

/-- A value of static type `any`: `none` is the untyped nil. -/
abbrev Any := Option Value

def Value.Type : Value → GoType
  | .bool t _ => t
  | .int t _ => t
  | .string t _ => t
  | .pointer t _ => t
  | .slice t _ => t
  | .struct t _ => t
  | .iface t _ => t
  | .other t _ _ => t

/-- The call `reflect.ValueOf(value)`; `none` is the invalid zero Value. -/
def ValueOf (value : Any) : Option Value := value

/-- The call `v.Interface()`: an interface-kinded Value yields its dynamic value. -/
def Value.Interface : Value → Any
  | .iface _ dyn => dyn
  | v => some v

/-- The call `v.IsNil()`. -/
def Value.IsNil : Value → Bool
  | .pointer _ elem => elem.isNone
  | .slice _ elems => elems.isNone
  | .iface _ dyn => dyn.isNone
  | .other _ isNil _ => isNil
  | _ => false

/-- The call `v.IsZero()` for the kinds where it is `v.IsNil()` (pointers). -/
def Value.IsZero (v : Value) : Bool := v.IsNil

/-- The call `v.Elem()` on a pointer: `none` is the zero Value of a nil pointer. -/
def Value.Elem : Value → Option Value
  | .pointer _ elem => elem
  | .iface _ dyn => dyn
  | _ => none

/-- The elements of a slice, a nil slice having none; `none` when the value
is not a slice (`v.Len()` would panic). -/
def Value.elems : Value → Option (List Value)
  | .slice _ (some es) => some es
  | .slice _ none => some []
  | _ => none

/-- The call `v.Field(i)`; `none` when the value is not a struct or has no such field. -/
def Value.Field : Value → Nat → Option Value
  | .struct _ fs, i => fs.get? i
  | _, _ => none

/-- The call `v.String()` on a string-kinded value. -/
def Value.String : Value → String
  | .string _ s => s
  | _ => ""

/-! ## Strings -/

def startsWith : List Char → List Char → Bool
  | _, [] => true
  | [], _ :: _ => false
  | c :: cs, d :: ds => c == d && startsWith cs ds

def containsChars : List Char → List Char → Bool
  | [], sub => sub.isEmpty
  | c :: cs, sub => startsWith (c :: cs) sub || containsChars cs sub

/-- The call `strings.Contains(s, substr)`. -/
def strings.Contains (s substr : String) : Bool := containsChars s.data substr.data

/-- The predicate `unicode.IsSpace`: the Latin-1 spaces and the White_Space
ranges beyond Latin-1. -/
def unicode.IsSpace (r : Char) : Bool :=
  if r.toNat ≤ 0xFF then
    r.toNat == 0x09 || r.toNat == 0x0A || r.toNat == 0x0B || r.toNat == 0x0C ||
    r.toNat == 0x0D || r.toNat == 0x20 || r.toNat == 0x85 || r.toNat == 0xA0
  else
    r.toNat == 0x1680 || (0x2000 ≤ r.toNat && r.toNat ≤ 0x200A) ||
    r.toNat == 0x2028 || r.toNat == 0x2029 || r.toNat == 0x202F ||
    r.toNat == 0x205F || r.toNat == 0x3000

/-- The call `strings.TrimRightFunc(s, f)`: drops the longest suffix of runes
satisfying `f`. -/
def strings.TrimRightFunc (s : String) (f : Char → Bool) : String :=
  ⟨s.data.rdropWhile f⟩

/-! ## The table writer -/

/-- The state of a `tablewriter.Table` as far as the renderer drives it. -/
structure Table where
  noWhiteSpace : Bool := false
  border : Bool := true
  hdrLine : Bool := true
  autoWrap : Bool := true
  hdrAlign : Nat := 0
  columnsAlign : List Nat := []
  headers : Option (List String) := none
  rows : List (List String) := []

def ALIGN_RIGHT : Nat := 2
def ALIGN_LEFT : Nat := 3

def Table.SetHeader (t : Table) (keys : List String) : Table := { t with headers := some keys }

def Table.Append (t : Table) (row : List String) : Table := { t with rows := t.rows ++ [row] }

/-! ## The environment: caller-supplied methods and external libraries -/

/-- Everything the renderer calls but does not define. -/
structure Env where
  /-- The method `RenderHuman(io.Writer) error` of a type, when it has one. -/
  selfRender : GoType → Option (Value → Prog)
  /-- The method `String() string` of a type, when it has one. -/
  stringer : GoType → Option (Value → String)
  /-- The chunks `table.Render()` writes; the table writer drops write errors. -/
  tableRender : Table → List String
  /-- Default formatting of `fmt.Fprintln` for one operand, without the newline. -/
  sprint : Any → String
  /-- The generic document `yaml.Unmarshal` decodes into. -/
  Doc : Type
  jsonMarshal : Any → Except GoError String
  yamlUnmarshal : String → Except GoError Doc
  /-- Encoding of a document with the given indent by `yaml.Encoder.Encode`. -/
  yamlEncode : Nat → Doc → Prog

/-- The type assertion `value.(RenderHuman)`: the method of the dynamic type
bound to the value, when the value is not nil and its type has the method. -/
def asRenderHuman (env : Env) (value : Any) : Option Prog :=
  match value with
  | none => none
  | some x =>
    match env.selfRender x.Type with
    | some RenderHuman => some (RenderHuman x)
    | none => none

/-- The check `t.Implements(stringerType)`. -/
def Env.Implements (env : Env) (t : GoType) : Bool := (env.stringer t).isSome

/-- The call `fmt.Fprintln(w, s)` for a string: one write of `s` and a newline. -/
def Fprintln (w : Sink) (s : String) : Sink × Outcome :=
  ((w.Write (s ++ "\n")).1, Outcome.ofErr (w.Write (s ++ "\n")).2)

/-- Writes of the table writer: every chunk is attempted, errors are dropped. -/
def writeAll : List String → Sink → Sink
  | [], w => w
  | p :: ps, w => writeAll ps (w.Write p).1

/-- The call `table.Render()`. -/
def Table.Render (env : Env) (t : Table) (w : Sink) : Sink := writeAll (env.tableRender t) w

/-! ## `renderer.go` -/

def humanTag : String := "human"

inductive renderContext where
  | contextField
  | contextColumn
deriving DecidableEq, Repr

open renderContext

abbrev typeRendersMap := GoType → Option (Sink → Value → Sink × Outcome)

structure Renderer where
  out : Sink
  typeRenders : typeRendersMap

def NewRenderer (out : Sink) : Renderer := { out := out, typeRenders := fun _ => none }

/-- The table `renderStruct` creates and configures before its field loop. -/
def recordTable : Table :=
  { noWhiteSpace := true, border := false, columnsAlign := [ALIGN_RIGHT, ALIGN_LEFT],
    autoWrap := false }

/-- The table `renderStructList` creates and configures before its header loop. -/
def listTable : Table :=
  { noWhiteSpace := true, hdrAlign := ALIGN_LEFT, border := false, hdrLine := false,
    autoWrap := false }

def shouldDisplayField (field : StructField) (context : renderContext) : Bool :=
  let tag := field.Tag.Get humanTag
  if context = contextColumn then
    if strings.Contains tag "skip-column" then false else field.IsExported
  else if context = contextField then
    if strings.Contains tag "skip-field" then false else field.IsExported
  else field.IsExported

def shouldDisplayValue (v : Value) : Bool :=
  match v.Type.Kind with
  | .Chan | .Func | .Map | .Ptr | .UnsafePointer | .Interface | .Slice => !v.IsNil
  | _ => true

/-- The helper `renderHumanValue`, over the package-level `Render` it calls. -/
def renderHumanValue (Render : Any → String × Outcome) (value : Any) : String × Outcome :=
  match Render value with
  | (str, .ok) =>
    let str := strings.TrimRightFunc str unicode.IsSpace
    if strings.Contains str "\n" then (str ++ "\n", .ok) else (str, .ok)
  | (_, err) => ("", err)

def renderAsYaml (env : Env) (r : Renderer) (value : Any) : Sink × Outcome :=
  match env.jsonMarshal value with
  | .error err => (r.out, .error (.wrap "error marshaling into JSON" err))
  | .ok json =>
    match env.yamlUnmarshal json with
    | .error err => (r.out, .error (.wrap "error converting JSON to YAML" err))
    | .ok jsonObj => (env.yamlEncode 2 jsonObj).run r.out

/-- The field loop of `renderStruct`: the table after the fields from index
`i` on, or the first failure. -/
def renderStructLoop (Render : Any → String × Outcome) (v : Value) :
    List StructField → Nat → Bool → Table → (Bool × Table) × Outcome
  | [], _, hasField, table => ((hasField, table), .ok)
  | field :: rest, i, hasField, table =>
    match v.Field i with
    | none => ((hasField, table), .panic "reflect: Field index out of range")
    | some value =>
      if shouldDisplayField field contextField && shouldDisplayValue value then
        match renderHumanValue Render value.Interface with
        | (value, .ok) =>
          renderStructLoop Render v rest (i + 1) true (table.Append [field.Name ++ " : ", value])
        | (_, err) => ((hasField, table), err)
      else renderStructLoop Render v rest (i + 1) hasField table

def renderStruct (env : Env) (Render : Any → String × Outcome) (r : Renderer)
    (v : Value) (t : GoType) : Sink × Outcome :=
  let table := recordTable
  match renderStructLoop Render v t.fields 0 false table with
  | ((hasField, table), .ok) =>
    if hasField then (table.Render env r.out, .ok)
    else Fprintln r.out (env.sprint v.Interface)
  | (_, err) => (r.out, err)

/-- The loop `for item.Type().Kind() == reflect.Ptr { item = item.Elem() }`;
`none` is the panic of `Type()` on the zero Value. -/
def unwrapItem : Value → Option Value
  | .pointer t (some elem) =>
    if t.Kind = Kind.Ptr then unwrapItem elem else some (.pointer t (some elem))
  | v => if v.Type.Kind = Kind.Ptr then none else some v

/-- The inline loop of `renderStructList`: sub-elements from index `j` on are
rendered and joined with ", " onto `value`; a failure breaks the loop. -/
def inlineLoop (Render : Any → String × Outcome) : List Value → Nat → String → String × Outcome
  | [], _, value => (value, .ok)
  | x :: xs, j, value =>
    let value := if j > 0 then value ++ ", " else value
    match renderHumanValue Render x.Interface with
    | (str, .ok) => inlineLoop Render xs (j + 1) (value ++ str)
    | (_, err) => (value, err)

/-- The body computing `value, err` for one displayed column of one item. -/
def renderCell (Render : Any → String × Outcome) (field : StructField) (item : Value) (i : Nat) :
    String × Outcome :=
  if field.Type_.Kind = Kind.Slice && strings.Contains (field.Tag.Get humanTag) "inline" then
    match item.Field i with
    | none => ("", .panic "reflect: call of reflect.Value.Field on non-struct Value")
    | some f =>
      match f.elems with
      | none => ("", .panic "reflect: call of reflect.Value.Len on non-slice Value")
      | some es => inlineLoop Render es 0 ""
  else
    match item.Field i with
    | none => ("", .panic "reflect: call of reflect.Value.Field on non-struct Value")
    | some f => renderHumanValue Render f.Interface

/-- The column loop of `renderStructList` for one item, from field index `i`
and cell index `col` on: the filled row, or the first failure. -/
def renderRowLoop (Render : Any → String × Outcome) (item : Value) :
    List StructField → Nat → Nat → List String → List String × Outcome
  | [], _, _, row => (row, .ok)
  | field :: rest, i, col, row =>
    if shouldDisplayField field contextColumn then
      match renderCell Render field item i with
      | (value, .ok) => renderRowLoop Render item rest (i + 1) (col + 1) (row.set col (value ++ "   "))
      | (_, err) => (row, err)
    else renderRowLoop Render item rest (i + 1) col row

/-- The row loop of `renderStructList`: the table after the remaining items,
or the first failure. -/
def renderRowsLoop (Render : Any → String × Outcome) (tpe : GoType) (headers : List String) :
    List Value → Table → Table × Outcome
  | [], table => (table, .ok)
  | x :: xs, table =>
    let row := List.replicate headers.length ""
    match unwrapItem x with
    | none => (table, .panic "reflect: call of reflect.Value.Type on zero Value")
    | some item =>
      match renderRowLoop Render item tpe.fields 0 0 row with
      | (row, .ok) => renderRowsLoop Render tpe headers xs (table.Append row)
      | (_, err) => (table, err)

/-- The header loop of `renderStructList`. -/
def computeHeaders : List StructField → List String
  | [] => []
  | field :: rest =>
    if shouldDisplayField field contextColumn then (field.Name ++ "  ") :: computeHeaders rest
    else computeHeaders rest

/-- The table `renderStructList` has built when it reaches `table.Render()`,
or the first failure. -/
def buildStructList (Render : Any → String × Outcome) (value : Value) (tpe : GoType)
    (skipHeader : Bool) : Table × Outcome :=
  let table := listTable
  let headers := computeHeaders tpe.fields
  let table := if !skipHeader then table.SetHeader headers else table
  match value.elems with
  | none => (table, .panic "reflect: call of reflect.Value.Len on non-slice Value")
  | some items => renderRowsLoop Render tpe headers items table

def renderStructList (env : Env) (Render : Any → String × Outcome) (r : Renderer)
    (value : Value) (tpe : GoType) (skipHeader : Bool) : Sink × Outcome :=
  match buildStructList Render value tpe skipHeader with
  | (table, .ok) => (table.Render env r.out, .ok)
  | (_, err) => (r.out, err)

/-- A loop `for i := 0; i < v.Len(); i++ { if err := f(v.Index(i)); err != nil { return err } }`. -/
def forEach (f : Sink → Value → Sink × Outcome) : List Value → Sink → Sink × Outcome
  | [], out => (out, .ok)
  | x :: xs, out =>
    match f out x with
    | (out, .ok) => forEach f xs out
    | res => res

/-- The package-level `Render`, over the method `Renderer.Render` of a new renderer. -/
def renderToString (render : Renderer → Any → Sink × Outcome) (value : Any) : String × Outcome :=
  match render (NewRenderer Buffer) value with
  | (buf, .ok) => (buf.buf, .ok)
  | (_, err) => ("", err)

mutual
/-- The method `Renderer.renderHuman`, up to its `for` loop. -/
def renderHuman (env : Env) : Nat → Renderer → Any → Bool → Sink × Outcome
  | 0, r, _, _ => (r.out, .outOfFuel)
  | n + 1, r, value, skipColumn =>
    match asRenderHuman env value with
    | some display => display.run r.out
    | none =>
      match ValueOf value with
      | none => (r.out, .ok)
      | some v => renderLoop env n r value v skipColumn
/-- One iteration of the `for` loop of `Renderer.renderHuman` on `v`. -/
def renderLoop (env : Env) : Nat → Renderer → Any → Value → Bool → Sink × Outcome
  | 0, r, _, _, _ => (r.out, .outOfFuel)
  | n + 1, r, value, v, skipColumn =>
    let t := v.Type
    match r.typeRenders t with
    | some typeRenderer => typeRenderer r.out v
    | none =>
      if env.Implements t then
        match v.Interface with
        | none => (r.out, .panic "interface conversion: interface is nil, not fmt.Stringer")
        | some s =>
          match env.stringer s.Type with
          | none => (r.out, .panic "interface conversion: missing method String")
          | some String => renderHuman env n r (some (.string stringType (String s))) false
      else
        match t.Kind with
        | .Ptr =>
          if v.IsZero then (r.out, .ok)
          else
            match v.Elem with
            | none => (r.out, .panic "reflect: call of reflect.Value.Elem on non-pointer Value")
            | some v => renderLoop env n r value v skipColumn
        | .Slice =>
          match t.Elem.bind unwrapPtrType, v.elems with
          | some elem, some items =>
            match r.typeRenders elem with
            | some typeRenderer => forEach typeRenderer items r.out
            | none =>
              if elem.Kind = Kind.Struct && !env.Implements elem then
                renderStructList env (renderToString (fun r value => renderHuman env n r value false))
                  r v elem skipColumn
              else
                forEach (fun out x => renderHuman env n { r with out := out } x.Interface false)
                  items r.out
          | _, _ => (r.out, .panic "reflect: Elem of invalid type")
        | .Struct =>
          renderStruct env (renderToString (fun r value => renderHuman env n r value false)) r v t
        | .String => Fprintln r.out v.String
        | _ => renderAsYaml env r value
end

def Renderer.Render (env : Env) (fuel : Nat) (r : Renderer) (value : Any) : Sink × Outcome :=
  renderHuman env fuel r value false

/-! ## `human.go` -/

def Render (env : Env) (fuel : Nat) (value : Any) : String × Outcome :=
  renderToString (Renderer.Render env fuel) value

def Write (env : Env) (fuel : Nat) (w : Sink) (value : Any) : Sink × Outcome :=
  (NewRenderer w).Render env fuel value

/-- A caller-supplied `RenderFn[T]`: the program it runs on the writer for a `T` value. -/
abbrev RenderFn := Value → Prog

/-! ## `types.go` -/

/-- The call `RegisterTypeRenderer[T](renderer, fn)`, `T` being given as a type
descriptor: the stored closure asserts `v.Interface().(T)` before calling `fn`. -/
def RegisterTypeRenderer (renderer : Renderer) (T : GoType) (fn : RenderFn) : Renderer :=
  { renderer with
    typeRenders := fun t =>
      if t = T then
        some (fun w v =>
          match v.Interface with
          | none => (w, .panic "interface conversion: interface is nil")
          | some x =>
            if x.Type = T then (fn x).run w
            else (w, .panic "interface conversion: interface holds a different type"))
      else renderer.typeRenders t }

/-! ## The specification's wording of the table contents -/

/-- Value presence as the specification words it: a value of kind chan, func,
map, pointer, unsafe pointer, interface or slice is present iff it is not nil;
a value of any other kind is present. -/
def specPresent (v : Value) : Bool :=
  if v.Type.Kind ∈ [Kind.Chan, Kind.Func, Kind.Map, Kind.Ptr, Kind.UnsafePointer,
      Kind.Interface, Kind.Slice] then !v.IsNil else true

/-- A field is shown in the vertical rendering iff it is exported, its tag does
not contain "skip-field" and its value is present. -/
def specFieldShown (f : StructField) (v : Value) : Bool :=
  f.IsExported && !strings.Contains (f.Tag.Get humanTag) "skip-field" && specPresent v

/-- The rows of the vertical rendering: one per shown field, in declaration
order, made of the label and the helper-rendered value. -/
def specRows (Render : Any → String × Outcome) (fields : List StructField)
    (vals : List Value) : List (List String) :=
  ((fields.zip vals).filter (fun p => specFieldShown p.1 p.2)).map
    (fun p => [p.1.Name ++ " : ", (renderHumanValue Render p.2.Interface).1])

/-- A field is a column iff it is exported and its tag does not contain
"skip-column". -/
def specColumn (f : StructField) : Bool :=
  f.IsExported && !strings.Contains (f.Tag.Get humanTag) "skip-column"

/-- The columns with their field indices, in declaration order. -/
def specColumns (fields : List StructField) : List (Nat × StructField) :=
  (fields.enumFrom 0).filter (fun p => specColumn p.2)

/-- The row of one element: per column, the rendered cell and three spaces. -/
def specRow (Render : Any → String × Outcome) (fields : List StructField) (x : Value) :
    List String :=
  match unwrapItem x with
  | some item => (specColumns fields).map (fun p => (renderCell Render p.2 item p.1).1 ++ "   ")
  | none => []

/-! ## Buffers -/

/-- A `bytes.Buffer` holding `b`. -/
def bufferWith (b : String) : Sink := { buf := b, fail := fun _ _ => none }

/-- Concatenation of texts, in order. -/
def joinAll : List String → String
  | [] => ""
  | s :: ss => s ++ joinAll ss

/-- An effect on the sink that, on every buffer, appends one fixed text and
ends with one fixed outcome. -/
def Appends (e : Sink → Sink × Outcome) : Prop :=
  ∃ s o, ∀ b, e (bufferWith b) = (bufferWith (b ++ s), o)

/-- Every entry of the registry appends to buffers. -/
def RegAppends (reg : typeRendersMap) : Prop :=
  ∀ t f, reg t = some f → ∀ v, Appends (fun w => f w v)

/-- Fuel order on results: the first ran out of fuel, or both are equal. -/
def FuelLe {α : Type} (a b : α × Outcome) : Prop := a.2 = .outOfFuel ∨ a = b

/-- The package-level `Render` returns text `s` and no error, given enough fuel. -/
def Renders (env : Env) (value : Any) (s : String) : Prop :=
  ∃ n, Render env n value = (s, .ok)

/-! ## Further notions used by the claims -/

/-- The predeclared type `int`. -/
def intType : GoType := .plain "int" .Int []

/-- The predeclared type `bool`. -/
def boolType : GoType := .plain "bool" .Bool []

/-- The unnamed pointer type `*t`. -/
def ptrTo (t : GoType) : GoType := .composite "" .Ptr t

/-- The unnamed slice type `[]t`. -/
def sliceOf (t : GoType) : GoType := .composite "" .Slice t

/-- A chain of non-nil pointers of the given types, outermost first, that ends
in a nil pointer of type `last`. -/
def nilChain : List GoType → GoType → Value
  | [], last => .pointer last none
  | t :: ts, last => .pointer t (some (nilChain ts last))

/-- The texts joined with a separator, as `strings.Join` does. -/
def joinWith (sep : String) : List String → String
  | [] => ""
  | [s] => s
  | s :: t :: ss => s ++ sep ++ joinWith sep (t :: ss)

/-- The literal of a boolean. -/
def boolText (b : Bool) : String := if b then "true" else "false"

/-- The decimal text of an integer. -/
def decimal (i : Int) : String := toString i

/-- The behaviour of `encoding/json` and `yaml.v3` on values of the built-in
types `bool` and `int`: marshalling gives the literal, and decoding the
literal and encoding the decoded document into a buffer writes the literal
and one newline. -/
def ScalarDocuments (env : Env) : Prop :=
  (∀ b : Bool, env.jsonMarshal (some (.bool boolType b)) = .ok (boolText b))
  ∧ (∀ i : Int, env.jsonMarshal (some (.int intType i)) = .ok (decimal i))
  ∧ (∀ b : Bool, ∃ d, env.yamlUnmarshal (boolText b) = .ok d
      ∧ (env.yamlEncode 2 d).run Buffer = (bufferWith (boolText b ++ "\n"), .ok))
  ∧ (∀ i : Int, ∃ d, env.yamlUnmarshal (decimal i) = .ok d
      ∧ (env.yamlEncode 2 d).run Buffer = (bufferWith (decimal i ++ "\n"), .ok))

/-- An error made by `fmt.Errorf` with `%w` around another error. -/
def GoError.isWrap : GoError → Bool
  | .new _ => false
  | .wrap _ _ => true

/-! ## Sample types, values and environment -/

/-- A named integer type with a `String` method, like `time.Duration`. -/
def durationType : GoType := .plain "time.Duration" .Int64 []

/-- A struct type with a `RenderHuman` method. -/
def badgeType : GoType := .plain "Badge" .Struct []

/-- The test type `A` of `TestSlice`, its first field being a boolean here. -/
def animalsType : GoType :=
  .plain "A" .Struct
    [ { Name := "Alligator", PkgPath := "", Type_ := ⟨.Bool⟩, Tag := [("human", "skip-column")] },
      { Name := "Beaver", PkgPath := "", Type_ := ⟨.String⟩, Tag := [] },
      { Name := "Camel", PkgPath := "", Type_ := ⟨.Bool⟩, Tag := [("human", "skip-field")] },
      { Name := "duck", PkgPath := "human", Type_ := ⟨.String⟩, Tag := [] } ]

def animals1 : Value :=
  .struct animalsType
    [.bool boolType true, .string stringType "hello", .bool boolType true,
      .string stringType "quack"]

def animals2 : Value :=
  .struct animalsType
    [.bool boolType false, .string stringType "world", .bool boolType false,
      .string stringType "quack"]

/-- A struct type with a string field, a pointer field and an unexported field. -/
def personType : GoType :=
  .plain "Person" .Struct
    [ { Name := "Name", PkgPath := "", Type_ := ⟨.String⟩, Tag := [] },
      { Name := "Next", PkgPath := "", Type_ := ⟨.Ptr⟩, Tag := [] },
      { Name := "Hidden", PkgPath := "", Type_ := ⟨.String⟩, Tag := [("human", "skip-field")] },
      { Name := "secret", PkgPath := "human", Type_ := ⟨.String⟩, Tag := [] } ]

def person : Value :=
  .struct personType
    [.string stringType "bob", .pointer (.composite "" .Ptr personType) none,
      .string stringType "x", .string stringType "y"]

/-- An environment: `Badge` renders itself, `time.Duration` has a `String`
method, tables are written one line per row with cells joined by a bar, and
the document libraries handle booleans only. -/
def sampleEnv : Env where
  selfRender := fun t =>
    if t = badgeType then some (fun _ => .write "badge\n" (fun e => .ret e)) else none
  stringer := fun t =>
    if t = durationType then some (fun _ => "1s") else none
  tableRender := fun t =>
    (match t.headers with
      | some h => [String.intercalate "|" h ++ "\n"]
      | none => [])
    ++ t.rows.map (fun row => String.intercalate "|" row ++ "\n")
  sprint := fun _ => "<struct>"
  Doc := String
  jsonMarshal := fun a =>
    match a with
    | some (.bool _ true) => .ok "true"
    | some (.bool _ false) => .ok "false"
    | _ => .error (.new "json: unsupported type")
  yamlUnmarshal := fun json => .ok json
  yamlEncode := fun _ doc => .write (doc ++ "\n") (fun e => .ret e)

def animalsSlice : Value :=
  .slice (.composite "" .Slice animalsType) (some [animals1, animals2])

def wordsSlice : Value :=
  .slice (.composite "" .Slice stringType)
    (some [.string stringType "a", .string stringType "b"])

/-- A registered render function that writes a fixed word. -/
def customFn : RenderFn := fun _ => .write "custom" (fun e => .ret e)

/-- A struct type with an inline slice field. -/
def taggedType : GoType :=
  .plain "Tagged" .Struct
    [ { Name := "Name", PkgPath := "", Type_ := ⟨.String⟩, Tag := [] },
      { Name := "Tags", PkgPath := "", Type_ := ⟨.Slice⟩, Tag := [("human", "inline")] } ]

def tagged : Value :=
  .struct taggedType
    [.string stringType "bob",
      .slice (sliceOf stringType) (some [.string stringType "x", .string stringType "y"])]

/-- A struct type without fields and without methods. -/
def plainType : GoType := .plain "Plain" .Struct []

/-- An environment whose document libraries handle booleans and integers:
marshalling gives the literal, which is decoded and encoded as it is. -/
def scalarEnv : Env where
  selfRender := fun _ => none
  stringer := fun _ => none
  tableRender := sampleEnv.tableRender
  sprint := sampleEnv.sprint
  Doc := String
  jsonMarshal := fun a =>
    match a with
    | some (.bool _ b) => .ok (boolText b)
    | some (.int _ i) => .ok (decimal i)
    | _ => .error (.new "json: unsupported type")
  yamlUnmarshal := fun json => .ok json
  yamlEncode := fun _ doc => .write (doc ++ "\n") (fun e => .ret e)

/-- A writer whose every `Write` fails. -/
def failingSink : Sink := { buf := "", fail := fun _ _ => some (.new "short write") }

/-- A channel type and a channel, which `encoding/json` cannot marshal. -/
def chanType : GoType := .composite "" .Chan intType

def chanValue : Value := .other chanType false 0

/-- A named integer type whose `RenderHuman` writes a line for 0 and, for any
other number, writes a fragment and then returns an error. -/
def flakyType : GoType := .plain "Flaky" .Int []

/-- The environment `sampleEnv` with more methods: `Badge` has `RenderHuman`
with a value receiver, so `*Badge` has it too, and `Flaky` has `RenderHuman`. -/
def methodsEnv : Env :=
  { sampleEnv with
    selfRender := fun t =>
      if t = badgeType ∨ t = ptrTo badgeType then
        some (fun _ => .write "badge\n" (fun e => .ret e))
      else if t = flakyType then
        some (fun v =>
          match v with
          | .int _ i =>
            if i = 0 then .write "fine\n" (fun e => .ret e)
            else .write "par" (fun _ => .ret (some (.new "boom")))
          | _ => .ret none)
      else none }

def flakySlice : Value :=
  .slice (sliceOf flakyType) (some [.int flakyType 0, .int flakyType 1, .int flakyType 0])

/-- A `**Badge` pointing to a `*Badge` pointing to a `Badge`. -/
def badgePtr : Value := .pointer (ptrTo badgeType) (some (.struct badgeType []))

def badgePtrPtr : Value := .pointer (ptrTo (ptrTo badgeType)) (some badgePtr)

/-- A struct type whose only field is a slice of `A` records. -/
def outerType : GoType :=
  .plain "Outer" .Struct [ { Name := "Items", PkgPath := "", Type_ := ⟨.Slice⟩, Tag := [] } ]

def outer : Value := .struct outerType [animalsSlice]

def outerSlice : Value := .slice (sliceOf outerType) (some [outer])

/-- A `[]*Person` and a `[]**Person`, each with one non-nil element. -/
def personPtrSlice : Value :=
  .slice (sliceOf (ptrTo personType)) (some [.pointer (ptrTo personType) (some person)])

def personPtrPtrSlice : Value :=
  .slice (sliceOf (ptrTo (ptrTo personType)))
    (some [.pointer (ptrTo (ptrTo personType)) (some (.pointer (ptrTo personType) (some person)))])

/-- A `[]*A` whose second element is a nil pointer. -/
def animalsPtrSlice : Value :=
  .slice (sliceOf (ptrTo animalsType))
    (some [.pointer (ptrTo animalsType) (some animals1), .pointer (ptrTo animalsType) none])

/-! ## Basic facts -/

theorem asRenderHuman_some (env : Env) (x : Value) (f : Value → Prog)
    (h : env.selfRender x.Type = some f) : asRenderHuman env (some x) = some (f x) := by
  simp [asRenderHuman, h]

theorem asRenderHuman_none (env : Env) (x : Value)
    (h : env.selfRender x.Type = none) : asRenderHuman env (some x) = none := by
  simp [asRenderHuman, h]

theorem renderHuman_succ_of_plain (env : Env) (n : Nat) (r : Renderer) (x : Value) (sc : Bool)
    (h : env.selfRender x.Type = none) :
    renderHuman env (n + 1) r (some x) sc = renderLoop env n r (some x) x sc := by
  simp [renderHuman, asRenderHuman_none env x h, ValueOf]

theorem Implements_false (env : Env) (t : GoType) (h : env.stringer t = none) :
    env.Implements t = false := by
  simp [Env.Implements, h]

theorem Implements_true (env : Env) (t : GoType) (f : Value → String)
    (h : env.stringer t = some f) : env.Implements t = true := by
  simp [Env.Implements, h]

theorem renderLoop_registered (env : Env) (n : Nat) (r : Renderer) (value : Any) (v : Value)
    (sc : Bool) (f : Sink → Value → Sink × Outcome) (h : r.typeRenders v.Type = some f) :
    renderLoop env (n + 1) r value v sc = f r.out v := by
  simp [renderLoop, h]

theorem renderLoop_string (env : Env) (n : Nat) (r : Renderer) (value : Any) (s : String)
    (sc : Bool) (hreg : r.typeRenders stringType = none) (hstr : env.stringer stringType = none) :
    renderLoop env (n + 1) r value (.string stringType s) sc = Fprintln r.out s := by
  simp only [renderLoop, Value.Type, hreg, Implements_false env _ hstr]
  simp [stringType, GoType.Kind, Value.String]

theorem renderLoop_stringer (env : Env) (n : Nat) (r : Renderer) (value : Any) (x : Value)
    (sc : Bool) (f : Value → String) (hx : x.Interface = some x)
    (hreg : r.typeRenders x.Type = none) (hstr : env.stringer x.Type = some f) :
    renderLoop env (n + 1) r value x sc
      = renderHuman env n r (some (.string stringType (f x))) false := by
  simp [renderLoop, hreg, Implements_true env _ f hstr, hx, hstr]

theorem Fprintln_Buffer (b s : String) :
    Fprintln { buf := b, fail := fun _ _ => none } s
      = ({ buf := b ++ (s ++ "\n"), fail := fun _ _ => none }, .ok) := by
  simp [Fprintln, Sink.Write, Outcome.ofErr]

theorem String_empty_append (s : String) : "" ++ s = s := by
  apply String.ext
  simp

/-! ### Strings -/

theorem startsWith_iff (l sub : List Char) : startsWith l sub = true ↔ sub <+: l := by
  induction l generalizing sub with
  | nil => cases sub <;> simp [startsWith]
  | cons c cs ih =>
    cases sub with
    | nil => simp [startsWith]
    | cons d ds =>
      simp only [startsWith, Bool.and_eq_true, beq_iff_eq, ih, List.cons_prefix_cons]
      constructor
      · rintro ⟨h1, h2⟩; exact ⟨h1.symm, h2⟩
      · rintro ⟨h1, h2⟩; exact ⟨h1.symm, h2⟩

theorem containsChars_iff (l sub : List Char) : containsChars l sub = true ↔ sub <:+: l := by
  induction l with
  | nil => cases sub <;> simp [containsChars]
  | cons c cs ih =>
    simp only [containsChars, Bool.or_eq_true, startsWith_iff, ih, List.infix_cons_iff]

theorem Contains_newline_iff (s : String) :
    strings.Contains s "\n" = true ↔ '\n' ∈ s.data := by
  rw [strings.Contains, containsChars_iff]
  show ['\n'] <:+: s.data ↔ _
  constructor
  · intro h
    exact h.subset (List.mem_singleton_self _)
  · intro h
    obtain ⟨a, b, hab⟩ := List.append_of_mem h
    exact ⟨a, b, by simp [hab]⟩

theorem rdropWhile_append_rtakeWhile (p : Char → Bool) (l : List Char) :
    l.rdropWhile p ++ l.rtakeWhile p = l := by
  have h := List.takeWhile_append_dropWhile p l.reverse
  have h2 := congrArg List.reverse h
  rw [List.reverse_append, List.reverse_reverse] at h2
  exact h2

theorem mem_rtakeWhile_imp (p : Char → Bool) (l : List Char) (c : Char)
    (h : c ∈ l.rtakeWhile p) : p c = true := by
  simp only [List.rtakeWhile, List.mem_reverse] at h
  exact List.mem_takeWhile_imp h

theorem TrimRightFunc_split (s : String) (f : Char → Bool) :
    ∃ ws : String, s = strings.TrimRightFunc s f ++ ws ∧ ∀ c ∈ ws.data, f c = true := by
  refine ⟨⟨s.data.rtakeWhile f⟩, ?_, ?_⟩
  · apply String.ext
    simp [strings.TrimRightFunc, rdropWhile_append_rtakeWhile]
  · intro c hc
    exact mem_rtakeWhile_imp f _ c hc

theorem TrimRightFunc_last (s : String) (f : Char → Bool) (c : Char)
    (h : (strings.TrimRightFunc s f).data.getLast? = some c) : f c = false := by
  simp only [strings.TrimRightFunc] at h
  have hne : s.data.rdropWhile f ≠ [] := by
    intro h0
    rw [h0] at h
    simp at h
  have h1 := List.rdropWhile_last_not f s.data hne
  rw [List.getLast?_eq_getLast _ hne] at h
  simp only [Option.some.injEq] at h
  rw [h] at h1
  simpa using h1

/-! ### Field predicates and headers -/

theorem shouldDisplayField_column (field : StructField) :
    shouldDisplayField field contextColumn = specColumn field := by
  simp only [shouldDisplayField, specColumn, if_true]
  cases strings.Contains (field.Tag.Get humanTag) "skip-column" <;> simp

theorem shouldDisplayField_field (field : StructField) :
    shouldDisplayField field contextField
      = (field.IsExported && !strings.Contains (field.Tag.Get humanTag) "skip-field") := by
  have h : ¬ (contextField = contextColumn) := by decide
  simp only [shouldDisplayField, if_neg h, if_true]
  cases strings.Contains (field.Tag.Get humanTag) "skip-field" <;> simp

theorem shouldDisplayValue_eq (v : Value) : shouldDisplayValue v = specPresent v := by
  unfold shouldDisplayValue specPresent
  cases h : v.Type.Kind <;> simp

theorem computeHeaders_enumFrom (fields : List StructField) (i : Nat) :
    computeHeaders fields
      = ((fields.enumFrom i).filter (fun p => specColumn p.2)).map (fun p => p.2.Name ++ "  ") := by
  induction fields generalizing i with
  | nil => simp [computeHeaders]
  | cons f rest ih =>
    simp only [computeHeaders, shouldDisplayField_column, List.enumFrom_cons, List.filter_cons]
    cases hf : specColumn f
    · simpa using ih (i + 1)
    · simpa using ih (i + 1)

theorem computeHeaders_eq (fields : List StructField) :
    computeHeaders fields = (specColumns fields).map (fun p => p.2.Name ++ "  ") :=
  computeHeaders_enumFrom fields 0

theorem computeHeaders_filter (fields : List StructField) :
    computeHeaders fields = (fields.filter specColumn).map (fun f => f.Name ++ "  ") := by
  induction fields with
  | nil => simp [computeHeaders]
  | cons f rest ih =>
    simp only [computeHeaders, shouldDisplayField_column, List.filter_cons]
    cases hf : specColumn f <;> simp [ih]

theorem renderRowsLoop_headers (Render : Any → String × Outcome) (tpe : GoType)
    (headers : List String) (items : List Value) (table : Table) :
    (renderRowsLoop Render tpe headers items table).1.headers = table.headers := by
  induction items generalizing table with
  | nil => simp [renderRowsLoop]
  | cons x xs ih =>
    simp only [renderRowsLoop]
    split
    · rfl
    · split
      · rw [ih]; rfl
      · rfl

/-! ### The field loop of `renderStruct` -/

theorem Field_append (t : GoType) (pre : List Value) (x : Value) (xs : List Value) :
    (Value.struct t (pre ++ x :: xs)).Field pre.length = some x := by
  simp only [Value.Field]
  induction pre with
  | nil => rfl
  | cons a pre ih => simpa using ih

theorem renderStructLoop_spec (Render : Any → String × Outcome) (t : GoType)
    (fields : List StructField) :
    ∀ (pre vals : List Value) (hasField : Bool) (table : Table),
      fields.length ≤ vals.length →
      (∀ p ∈ fields.zip vals, specFieldShown p.1 p.2 = true →
        (renderHumanValue Render p.2.Interface).2 = .ok) →
      renderStructLoop Render (.struct t (pre ++ vals)) fields pre.length hasField table
        = ((hasField || !(specRows Render fields vals).isEmpty,
            { table with rows := table.rows ++ specRows Render fields vals }), .ok) := by
  induction fields with
  | nil =>
    intro pre vals hasField table _ _
    simp [renderStructLoop, specRows]
  | cons f rest ih =>
    intro pre vals hasField table hlen hok
    cases vals with
    | nil => simp at hlen
    | cons x xs =>
      have hlen2 : rest.length ≤ xs.length := by simpa using hlen
      have hok2 : ∀ p ∈ rest.zip xs, specFieldShown p.1 p.2 = true →
          (renderHumanValue Render p.2.Interface).2 = .ok := by
        intro p hp
        exact hok p (by simp [List.zip_cons_cons, hp])
      have hpre : pre ++ x :: xs = (pre ++ [x]) ++ xs := by simp
      have hi : pre.length + 1 = (pre ++ [x]).length := by simp
      simp only [renderStructLoop, Field_append, shouldDisplayField_field, shouldDisplayValue_eq]
      by_cases hshown : specFieldShown f x = true
      · have hcond : (f.IsExported && !strings.Contains (f.Tag.Get humanTag) "skip-field"
            && specPresent x) = true := hshown
        have hx := hok (f, x) (by simp [List.zip_cons_cons]) hshown
        rw [if_pos hcond]
        rcases hr : renderHumanValue Render x.Interface with ⟨str, o⟩
        rw [hr] at hx
        simp only at hx
        subst hx
        simp only
        rw [hpre, hi, ih (pre ++ [x]) xs true _ hlen2 hok2]
        simp [specRows, List.zip_cons_cons, List.filter_cons, hshown, hr, Table.Append]
      · have hcond : ¬ ((f.IsExported && !strings.Contains (f.Tag.Get humanTag) "skip-field"
            && specPresent x) = true) := hshown
        rw [if_neg hcond]
        rw [hpre, hi, ih (pre ++ [x]) xs hasField _ hlen2 hok2]
        simp [specRows, List.zip_cons_cons, List.filter_cons, hshown]

theorem renderLoop_struct (env : Env) (n : Nat) (r : Renderer) (value : Any) (v : Value)
    (sc : Bool) (hk : v.Type.Kind = Kind.Struct) (hreg : r.typeRenders v.Type = none)
    (hstr : env.stringer v.Type = none) :
    renderLoop env (n + 1) r value v sc = renderStruct env (Render env n) r v v.Type := by
  simp only [renderLoop, hreg, Implements_false env _ hstr, hk]
  rfl

/-! ### The loops of `renderStructList` -/

theorem renderRowLoop_spec (Render : Any → String × Outcome) (item : Value)
    (fields : List StructField) :
    ∀ (i : Nat) (done rest : List String),
      (∀ p ∈ (fields.enumFrom i).filter (fun p => specColumn p.2),
        (renderCell Render p.2 item p.1).2 = .ok) →
      ((fields.enumFrom i).filter (fun p => specColumn p.2)).length ≤ rest.length →
      renderRowLoop Render item fields i done.length (done ++ rest)
        = (done ++ ((fields.enumFrom i).filter (fun p => specColumn p.2)).map
              (fun p => (renderCell Render p.2 item p.1).1 ++ "   ")
            ++ rest.drop ((fields.enumFrom i).filter (fun p => specColumn p.2)).length, .ok) := by
  induction fields with
  | nil =>
    intro i done rest _ _
    simp [renderRowLoop]
  | cons f fs ih =>
    intro i done rest hok hlen
    simp only [renderRowLoop, shouldDisplayField_column, List.enumFrom_cons]
    by_cases hf : specColumn f = true
    · simp only [List.enumFrom_cons, List.filter_cons, hf, if_true, List.length_cons] at hok hlen
      have hcell := hok (i, f) (by simp)
      have hok2 : ∀ p ∈ (fs.enumFrom (i + 1)).filter (fun p => specColumn p.2),
          (renderCell Render p.2 item p.1).2 = .ok := by
        intro p hp
        exact hok p (List.mem_cons_of_mem _ hp)
      cases rest with
      | nil => simp at hlen
      | cons r0 rest2 =>
        have hlen2 : ((fs.enumFrom (i + 1)).filter (fun p => specColumn p.2)).length
            ≤ rest2.length := by simpa using hlen
        rw [if_pos hf]
        rcases hr : renderCell Render f item i with ⟨value, o⟩
        rw [hr] at hcell
        simp only at hcell
        subst hcell
        simp only
        have hset : (done ++ r0 :: rest2).set done.length (value ++ "   ")
            = (done ++ [value ++ "   "]) ++ rest2 := by
          rw [List.set_append_right _ _ (le_refl _)]
          simp
        have hcol : done.length + 1 = (done ++ [value ++ "   "]).length := by simp
        rw [hset, hcol, ih (i + 1) (done ++ [value ++ "   "]) rest2 hok2 hlen2]
        simp [List.filter_cons, hf, hr]
    · have hf2 : specColumn f = false := by simpa using hf
      simp only [List.enumFrom_cons, List.filter_cons, hf2] at hok hlen
      rw [if_neg hf]
      rw [ih (i + 1) done rest (by simpa using hok) (by simpa using hlen)]
      simp [List.filter_cons, hf2]

theorem specColumns_length (fields : List StructField) :
    (specColumns fields).length = (computeHeaders fields).length := by
  rw [computeHeaders_eq, List.length_map]

theorem specRow_length (Render : Any → String × Outcome) (fields : List StructField)
    (x item : Value) (h : unwrapItem x = some item) :
    (specRow Render fields x).length = (computeHeaders fields).length := by
  simp [specRow, h, specColumns_length]

theorem renderRowLoop_row (Render : Any → String × Outcome) (fields : List StructField)
    (x item : Value) (h : unwrapItem x = some item)
    (hok : ∀ p ∈ specColumns fields, (renderCell Render p.2 item p.1).2 = .ok) :
    renderRowLoop Render item fields 0 0 (List.replicate (computeHeaders fields).length "")
      = (specRow Render fields x, .ok) := by
  have hl := specColumns_length fields
  have h1 := renderRowLoop_spec Render item fields 0 []
    (List.replicate (computeHeaders fields).length "") hok
    (by rw [List.length_replicate]; exact le_of_eq hl)
  simp only [List.length_nil, List.nil_append] at h1
  rw [h1]
  have hd : List.drop ((fields.enumFrom 0).filter (fun p => specColumn p.2)).length
      (List.replicate (computeHeaders fields).length "") = [] := by
    apply List.drop_eq_nil_of_le
    rw [List.length_replicate]
    exact le_of_eq hl.symm
  rw [hd]
  simp [specRow, h, specColumns]

theorem renderRowsLoop_spec (Render : Any → String × Outcome) (tpe : GoType)
    (items : List Value) :
    ∀ table : Table,
      (∀ x ∈ items, ∃ item, unwrapItem x = some item
        ∧ ∀ p ∈ specColumns tpe.fields, (renderCell Render p.2 item p.1).2 = .ok) →
      renderRowsLoop Render tpe (computeHeaders tpe.fields) items table
        = ({ table with rows := table.rows ++ items.map (specRow Render tpe.fields) }, .ok) := by
  induction items with
  | nil =>
    intro table _
    simp [renderRowsLoop]
  | cons x xs ih =>
    intro table hok
    obtain ⟨item, hitem, hcells⟩ := hok x (List.mem_cons_self _ _)
    have hok2 : ∀ y ∈ xs, ∃ item, unwrapItem y = some item
        ∧ ∀ p ∈ specColumns tpe.fields, (renderCell Render p.2 item p.1).2 = .ok := by
      intro y hy
      exact hok y (List.mem_cons_of_mem _ hy)
    simp only [renderRowsLoop, hitem, renderRowLoop_row Render tpe.fields x item hitem hcells]
    rw [ih _ hok2]
    simp [Table.Append]

/-! ### Rendering into buffers -/

theorem String_append_empty (s : String) : s ++ "" = s := by
  apply String.ext
  simp

theorem String_append_assoc (a b c : String) : a ++ b ++ c = a ++ (b ++ c) := by
  apply String.ext
  simp

theorem bufferWith_Write (b p : String) :
    (bufferWith b).Write p = (bufferWith (b ++ p), none) := by
  simp [bufferWith, Sink.Write]

theorem Appends_const (o : Outcome) : Appends (fun w => (w, o)) :=
  ⟨"", o, fun b => by simp [String_append_empty]⟩

theorem Appends_Fprintln (s : String) : Appends (fun w => Fprintln w s) :=
  ⟨s ++ "\n", .ok, fun b => by simp [Fprintln, bufferWith_Write, Outcome.ofErr]⟩

theorem Appends_run (p : Prog) : Appends (fun w => p.run w) := by
  induction p with
  | ret err => exact ⟨"", Outcome.ofErr err, fun b => by simp [Prog.run, String_append_empty]⟩
  | panic msg => exact ⟨"", .panic msg, fun b => by simp [Prog.run, String_append_empty]⟩
  | write q next ih =>
    obtain ⟨s, o, h⟩ := ih none
    refine ⟨q ++ s, o, fun b => ?_⟩
    have h2 := h (b ++ q)
    simp only at h2
    simp only [Prog.run, bufferWith_Write]
    rw [h2, String_append_assoc]

theorem writeAll_buffer (ps : List String) (b : String) :
    writeAll ps (bufferWith b) = bufferWith (b ++ joinAll ps) := by
  induction ps generalizing b with
  | nil => simp [writeAll, joinAll, String_append_empty]
  | cons q qs ih =>
    simp only [writeAll, bufferWith_Write, ih, joinAll, String_append_assoc]

theorem Appends_tableRender (env : Env) (t : Table) :
    Appends (fun w => (t.Render env w, Outcome.ok)) :=
  ⟨joinAll (env.tableRender t), .ok, fun b => by simp [Table.Render, writeAll_buffer]⟩

theorem Appends_renderStruct (env : Env) (Render : Any → String × Outcome)
    (reg : typeRendersMap) (v : Value) (t : GoType) :
    Appends (fun w => renderStruct env Render { out := w, typeRenders := reg } v t) := by
  simp only [renderStruct]
  split
  · split
    · exact Appends_tableRender env _
    · exact Appends_Fprintln _
  · exact Appends_const _

theorem Appends_renderStructList (env : Env) (Render : Any → String × Outcome)
    (reg : typeRendersMap) (v : Value) (t : GoType) (sh : Bool) :
    Appends (fun w => renderStructList env Render { out := w, typeRenders := reg } v t sh) := by
  simp only [renderStructList]
  split
  · exact Appends_tableRender env _
  · exact Appends_const _

theorem Appends_renderAsYaml (env : Env) (reg : typeRendersMap) (value : Any) :
    Appends (fun w => renderAsYaml env { out := w, typeRenders := reg } value) := by
  simp only [renderAsYaml]
  split
  · exact Appends_const _
  · split
    · exact Appends_const _
    · exact Appends_run _

theorem Appends_forEach (f : Sink → Value → Sink × Outcome) (items : List Value)
    (h : ∀ x ∈ items, Appends (fun w => f w x)) : Appends (fun w => forEach f items w) := by
  induction items with
  | nil => exact ⟨"", .ok, fun b => by simp [forEach, String_append_empty]⟩
  | cons x xs ih =>
    obtain ⟨s, o, hx⟩ := h x (List.mem_cons_self _ _)
    obtain ⟨s2, o2, hxs⟩ := ih (fun y hy => h y (List.mem_cons_of_mem _ hy))
    simp only at hx hxs
    by_cases ho : o = .ok
    · subst ho
      refine ⟨s ++ s2, o2, fun b => ?_⟩
      simp only [forEach, hx, hxs, String_append_assoc]
    · refine ⟨s, o, fun b => ?_⟩
      simp only [forEach, hx]
      cases o <;> simp at ho ⊢

theorem Appends_render (env : Env) (n : Nat) :
    (∀ (reg : typeRendersMap) (value : Any) (sc : Bool), RegAppends reg →
      Appends (fun w => renderHuman env n { out := w, typeRenders := reg } value sc))
    ∧ (∀ (reg : typeRendersMap) (value : Any) (v : Value) (sc : Bool), RegAppends reg →
      Appends (fun w => renderLoop env n { out := w, typeRenders := reg } value v sc)) := by
  induction n with
  | zero =>
    exact ⟨fun _ _ _ _ => by simpa [renderHuman] using Appends_const _,
      fun _ _ _ _ _ => by simpa [renderLoop] using Appends_const _⟩
  | succ n ih =>
    obtain ⟨ihH, ihL⟩ := ih
    constructor
    · intro reg value sc hreg
      simp only [renderHuman]
      split
      · exact Appends_run _
      · split
        · exact Appends_const _
        · exact ihL reg value _ sc hreg
    · intro reg value v sc hreg
      simp only [renderLoop]
      split
      · rename_i f hf
        exact hreg _ f hf v
      · split
        · split
          · exact Appends_const _
          · split
            · exact Appends_const _
            · exact ihH reg _ false hreg
        · split
          · split
            · exact Appends_const _
            · split
              · exact Appends_const _
              · exact ihL reg value _ sc hreg
          · split
            · split
              · rename_i f hf
                apply Appends_forEach
                intro x _
                exact hreg _ f hf x
              · split
                · exact Appends_renderStructList env _ reg v _ sc
                · apply Appends_forEach
                  intro x _
                  exact ihH reg _ false hreg
            · exact Appends_const _
          · exact Appends_renderStruct env _ reg v _
          · exact Appends_Fprintln _
          · exact Appends_renderAsYaml env reg value

/-! ### More fuel never changes a finished result -/

theorem FuelLe_refl {α : Type} (a : α × Outcome) : FuelLe a a := Or.inr rfl

theorem renderToString_mono (g g2 : Renderer → Any → Sink × Outcome)
    (h : ∀ r v, FuelLe (g r v) (g2 r v)) (value : Any) :
    FuelLe (renderToString g value) (renderToString g2 value) := by
  rcases h (NewRenderer Buffer) value with h1 | h1
  · left
    rcases hr : g (NewRenderer Buffer) value with ⟨w, o⟩
    rw [hr] at h1
    simp only at h1
    subst h1
    simp [renderToString, hr]
  · right
    simp only [renderToString, h1]

theorem renderHumanValue_mono (R R2 : Any → String × Outcome)
    (h : ∀ v, FuelLe (R v) (R2 v)) (value : Any) :
    FuelLe (renderHumanValue R value) (renderHumanValue R2 value) := by
  rcases h value with h1 | h1
  · left
    rcases hr : R value with ⟨w, o⟩
    rw [hr] at h1
    simp only at h1
    subst h1
    simp [renderHumanValue, hr]
  · right
    simp only [renderHumanValue, h1]

theorem inlineLoop_mono (R R2 : Any → String × Outcome) (h : ∀ v, FuelLe (R v) (R2 v))
    (xs : List Value) : ∀ (j : Nat) (value : String),
      FuelLe (inlineLoop R xs j value) (inlineLoop R2 xs j value) := by
  induction xs with
  | nil => intro j value; exact FuelLe_refl _
  | cons x xs ih =>
    intro j value
    simp only [inlineLoop]
    rcases renderHumanValue_mono R R2 h x.Interface with h1 | h1
    · left
      rcases hr : renderHumanValue R x.Interface with ⟨w, o⟩
      rw [hr] at h1
      simp only at h1
      subst h1
      rfl
    · rw [← h1]
      rcases hr : renderHumanValue R x.Interface with ⟨w, o⟩
      cases o
      · exact ih _ _
      all_goals exact FuelLe_refl _

theorem renderCell_mono (R R2 : Any → String × Outcome) (h : ∀ v, FuelLe (R v) (R2 v))
    (field : StructField) (item : Value) (i : Nat) :
    FuelLe (renderCell R field item i) (renderCell R2 field item i) := by
  simp only [renderCell]
  split
  · split
    · exact FuelLe_refl _
    · split
      · exact FuelLe_refl _
      · exact inlineLoop_mono R R2 h _ _ _
  · split
    · exact FuelLe_refl _
    · exact renderHumanValue_mono R R2 h _

theorem renderRowLoop_mono (R R2 : Any → String × Outcome) (h : ∀ v, FuelLe (R v) (R2 v))
    (item : Value) (fields : List StructField) : ∀ (i col : Nat) (row : List String),
      FuelLe (renderRowLoop R item fields i col row) (renderRowLoop R2 item fields i col row) := by
  induction fields with
  | nil => intro i col row; exact FuelLe_refl _
  | cons f fs ih =>
    intro i col row
    simp only [renderRowLoop]
    split
    · rcases renderCell_mono R R2 h f item i with h1 | h1
      · left
        rcases hr : renderCell R f item i with ⟨w, o⟩
        rw [hr] at h1
        simp only at h1
        subst h1
        rfl
      · rw [← h1]
        rcases hr : renderCell R f item i with ⟨w, o⟩
        cases o
        · exact ih _ _ _
        all_goals exact FuelLe_refl _
    · exact ih _ _ _

theorem renderRowsLoop_mono (R R2 : Any → String × Outcome) (h : ∀ v, FuelLe (R v) (R2 v))
    (tpe : GoType) (headers : List String) (items : List Value) : ∀ table : Table,
      FuelLe (renderRowsLoop R tpe headers items table)
        (renderRowsLoop R2 tpe headers items table) := by
  induction items with
  | nil => intro table; exact FuelLe_refl _
  | cons x xs ih =>
    intro table
    simp only [renderRowsLoop]
    split
    · exact FuelLe_refl _
    · rename_i item _
      rcases renderRowLoop_mono R R2 h item tpe.fields 0 0
          (List.replicate headers.length "") with h1 | h1
      · left
        rcases hr : renderRowLoop R item tpe.fields 0 0 (List.replicate headers.length "")
          with ⟨w, o⟩
        rw [hr] at h1
        simp only at h1
        subst h1
        rfl
      · rw [← h1]
        rcases hr : renderRowLoop R item tpe.fields 0 0 (List.replicate headers.length "")
          with ⟨w, o⟩
        cases o
        · exact ih _
        all_goals exact FuelLe_refl _

theorem buildStructList_mono (R R2 : Any → String × Outcome) (h : ∀ v, FuelLe (R v) (R2 v))
    (value : Value) (tpe : GoType) (sh : Bool) :
    FuelLe (buildStructList R value tpe sh) (buildStructList R2 value tpe sh) := by
  simp only [buildStructList]
  split
  · exact FuelLe_refl _
  · exact renderRowsLoop_mono R R2 h _ _ _ _

theorem renderStructList_mono (env : Env) (R R2 : Any → String × Outcome)
    (h : ∀ v, FuelLe (R v) (R2 v)) (r : Renderer) (value : Value) (tpe : GoType) (sh : Bool) :
    FuelLe (renderStructList env R r value tpe sh) (renderStructList env R2 r value tpe sh) := by
  rcases buildStructList_mono R R2 h value tpe sh with h1 | h1
  · left
    rcases hr : buildStructList R value tpe sh with ⟨w, o⟩
    rw [hr] at h1
    simp only at h1
    subst h1
    simp [renderStructList, hr]
  · right
    simp only [renderStructList, h1]

theorem renderStructLoop_mono (R R2 : Any → String × Outcome) (h : ∀ v, FuelLe (R v) (R2 v))
    (v : Value) (fields : List StructField) : ∀ (i : Nat) (hasField : Bool) (table : Table),
      FuelLe (renderStructLoop R v fields i hasField table)
        (renderStructLoop R2 v fields i hasField table) := by
  induction fields with
  | nil => intro i hasField table; exact FuelLe_refl _
  | cons f fs ih =>
    intro i hasField table
    simp only [renderStructLoop]
    split
    · exact FuelLe_refl _
    · rename_i value _
      split
      · rcases renderHumanValue_mono R R2 h value.Interface with h1 | h1
        · left
          rcases hr : renderHumanValue R value.Interface with ⟨w, o⟩
          rw [hr] at h1
          simp only at h1
          subst h1
          rfl
        · rw [← h1]
          rcases hr : renderHumanValue R value.Interface with ⟨w, o⟩
          cases o
          · exact ih _ _ _
          all_goals exact FuelLe_refl _
      · exact ih _ _ _

theorem renderStruct_mono (env : Env) (R R2 : Any → String × Outcome)
    (h : ∀ v, FuelLe (R v) (R2 v)) (r : Renderer) (v : Value) (t : GoType) :
    FuelLe (renderStruct env R r v t) (renderStruct env R2 r v t) := by
  simp only [renderStruct]
  rcases renderStructLoop_mono R R2 h v t.fields 0 false recordTable with h1 | h1
  · left
    rcases hr : renderStructLoop R v t.fields 0 false recordTable with ⟨w, o⟩
    rw [hr] at h1
    simp only at h1
    subst h1
    rfl
  · right
    rw [h1]

theorem forEach_mono (f f2 : Sink → Value → Sink × Outcome)
    (h : ∀ w x, FuelLe (f w x) (f2 w x)) (items : List Value) :
    ∀ w : Sink, FuelLe (forEach f items w) (forEach f2 items w) := by
  induction items with
  | nil => intro w; exact FuelLe_refl _
  | cons x xs ih =>
    intro w
    simp only [forEach]
    rcases h w x with h1 | h1
    · left
      rcases hr : f w x with ⟨w2, o⟩
      rw [hr] at h1
      simp only at h1
      subst h1
      rfl
    · rw [← h1]
      rcases hr : f w x with ⟨w2, o⟩
      cases o
      · exact ih _
      all_goals exact FuelLe_refl _

theorem render_mono (env : Env) (n : Nat) :
    (∀ (r : Renderer) (value : Any) (sc : Bool),
      FuelLe (renderHuman env n r value sc) (renderHuman env (n + 1) r value sc))
    ∧ (∀ (r : Renderer) (value : Any) (v : Value) (sc : Bool),
      FuelLe (renderLoop env n r value v sc) (renderLoop env (n + 1) r value v sc)) := by
  induction n with
  | zero =>
    exact ⟨fun _ _ _ => Or.inl (by simp [renderHuman]),
      fun _ _ _ _ => Or.inl (by simp [renderLoop])⟩
  | succ n ih =>
    obtain ⟨ihH, ihL⟩ := ih
    have ihR : ∀ v, FuelLe (renderToString (fun r value => renderHuman env n r value false) v)
        (renderToString (fun r value => renderHuman env (n + 1) r value false) v) :=
      fun v => renderToString_mono _ _ (fun r value => ihH r value false) v
    constructor
    · intro r value sc
      simp only [renderHuman]
      split
      · exact FuelLe_refl _
      · split
        · exact FuelLe_refl _
        · exact ihL _ _ _ _
    · intro r value v sc
      simp only [renderLoop]
      split
      · exact FuelLe_refl _
      · split
        · split
          · exact FuelLe_refl _
          · split
            · exact FuelLe_refl _
            · exact ihH _ _ _
        · split
          · split
            · exact FuelLe_refl _
            · split
              · exact FuelLe_refl _
              · exact ihL _ _ _ _
          · split
            · split
              · exact FuelLe_refl _
              · split
                · exact renderStructList_mono env _ _ ihR _ _ _ _
                · exact forEach_mono _ _ (fun w x => ihH _ _ _) _ _
            · exact FuelLe_refl _
          · exact renderStruct_mono env _ _ ihR _ _ _
          · exact FuelLe_refl _
          · exact FuelLe_refl _

theorem renderHuman_fuel (env : Env) (n m : Nat) (r : Renderer) (value : Any) (sc : Bool)
    (hnm : n ≤ m) (h : (renderHuman env n r value sc).2 ≠ .outOfFuel) :
    renderHuman env m r value sc = renderHuman env n r value sc := by
  induction m, hnm using Nat.le_induction with
  | base => rfl
  | succ k _ ih =>
    rcases (render_mono env k).1 r value sc with h1 | h1
    · rw [ih] at h1
      exact absurd h1 h
    · rw [← h1, ih]

theorem Render_fuel (env : Env) (n m : Nat) (value : Any) (hnm : n ≤ m)
    (h : (Render env n value).2 ≠ .outOfFuel) : Render env m value = Render env n value := by
  have h2 : (renderHuman env n (NewRenderer Buffer) value false).2 ≠ .outOfFuel := by
    intro h0
    apply h
    rcases hr : renderHuman env n (NewRenderer Buffer) value false with ⟨w, o⟩
    rw [hr] at h0
    simp only at h0
    subst h0
    simp [Render, renderToString, Renderer.Render, hr]
  simp only [Render, renderToString, Renderer.Render,
    renderHuman_fuel env n m (NewRenderer Buffer) value false hnm h2]

/-! ### Sequences rendered element by element -/

theorem Renders_fuel (env : Env) (n m : Nat) (value : Any) (s : String) (hnm : n ≤ m)
    (h : Render env n value = (s, .ok)) : Render env m value = (s, .ok) := by
  rw [Render_fuel env n m value hnm (by rw [h]; simp), h]

theorem Renders_common_fuel (env : Env) (out : Value → String) (items : List Value)
    (h : ∀ x ∈ items, Renders env x.Interface (out x)) :
    ∃ n, ∀ x ∈ items, Render env n x.Interface = (out x, .ok) := by
  induction items with
  | nil => exact ⟨0, fun x hx => by simp at hx⟩
  | cons y ys ih =>
    obtain ⟨n1, h1⟩ := h y (List.mem_cons_self _ _)
    obtain ⟨n2, h2⟩ := ih (fun x hx => h x (List.mem_cons_of_mem _ hx))
    refine ⟨max n1 n2, fun x hx => ?_⟩
    rcases List.mem_cons.1 hx with hxy | hxys
    · subst hxy
      exact Renders_fuel env n1 _ _ _ (le_max_left _ _) h1
    · exact Renders_fuel env n2 _ _ _ (le_max_right _ _) (h2 x hxys)

theorem renderHuman_buffer (env : Env) (n : Nat) (value : Any) (s : String)
    (h : Render env n value = (s, .ok)) (b : String) :
    renderHuman env n { out := bufferWith b, typeRenders := fun _ => none } value false
      = (bufferWith (b ++ s), .ok) := by
  obtain ⟨s2, o, hA⟩ := (Appends_render env n).1 (fun _ => none) value false
    (fun t f hf => by simp at hf)
  simp only at hA
  have h0 := hA ""
  have hR : Render env n value
      = (match (bufferWith ("" ++ s2), o) with
        | (buf, Outcome.ok) => (buf.buf, Outcome.ok)
        | (_, err) => ("", err)) := by
    simp only [Render, renderToString, Renderer.Render]
    rw [← h0]
    rfl
  rw [h] at hR
  cases o <;> simp [bufferWith, String_empty_append] at hR
  subst hR
  exact hA b

theorem forEach_concat (env : Env) (n : Nat) (out : Value → String) (items : List Value)
    (h : ∀ x ∈ items, Render env n x.Interface = (out x, .ok)) :
    ∀ b : String,
      forEach (fun w x => renderHuman env n { out := w, typeRenders := fun _ => none }
          x.Interface false) items (bufferWith b)
        = (bufferWith (b ++ joinAll (items.map out)), .ok) := by
  induction items with
  | nil => intro b; simp [forEach, joinAll, String_append_empty]
  | cons y ys ih =>
    intro b
    simp only [forEach, renderHuman_buffer env n _ _ (h y (List.mem_cons_self _ _)),
      ih (fun x hx => h x (List.mem_cons_of_mem _ hx)), List.map_cons, joinAll,
      String_append_assoc]

theorem renderLoop_slice_each (env : Env) (n : Nat) (r : Renderer) (value : Any) (v : Value)
    (items : List Value) (sc : Bool) (elem : GoType)
    (hk : v.Type.Kind = Kind.Slice) (hitems : v.elems = some items)
    (hreg : r.typeRenders v.Type = none) (hstr : env.stringer v.Type = none)
    (helem : v.Type.Elem.bind unwrapPtrType = some elem)
    (hregE : r.typeRenders elem = none)
    (hne : elem.Kind = Kind.Struct → env.Implements elem = true) :
    renderLoop env (n + 1) r value v sc
      = forEach (fun out x => renderHuman env n { r with out := out } x.Interface false)
          items r.out := by
  simp only [renderLoop, hreg, Implements_false env _ hstr, hk, helem, hitems, hregE]
  by_cases hks : elem.Kind = Kind.Struct
  · simp [hks, hne hks]
  · simp [hks]

/-! ### Pointer chains and records without rows -/

theorem renderLoop_ptr_nil (env : Env) (n : Nat) (r : Renderer) (value : Any) (sc : Bool)
    (t : GoType) (hk : t.Kind = Kind.Ptr) (hreg : r.typeRenders t = none)
    (hstr : env.stringer t = none) :
    renderLoop env (n + 1) r value (.pointer t none) sc = (r.out, .ok) := by
  simp [renderLoop, Value.Type, hreg, Implements_false env _ hstr, hk, Value.IsZero,
    Value.IsNil]

theorem renderLoop_ptr_step (env : Env) (n : Nat) (r : Renderer) (value : Any) (sc : Bool)
    (t : GoType) (w : Value) (hk : t.Kind = Kind.Ptr) (hreg : r.typeRenders t = none)
    (hstr : env.stringer t = none) :
    renderLoop env (n + 1) r value (.pointer t (some w)) sc = renderLoop env n r value w sc := by
  simp [renderLoop, Value.Type, hreg, Implements_false env _ hstr, hk, Value.IsZero,
    Value.IsNil, Value.Elem]

theorem renderLoop_nilChain (env : Env) (r : Renderer) (value : Any) (sc : Bool)
    (ts : List GoType) (last : GoType)
    (h : ∀ t ∈ last :: ts,
      t.Kind = Kind.Ptr ∧ r.typeRenders t = none ∧ env.stringer t = none) :
    ∀ n, renderLoop env (n + ts.length + 1) r value (nilChain ts last) sc = (r.out, .ok) := by
  induction ts with
  | nil =>
    intro n
    obtain ⟨hk, hreg, hstr⟩ := h last (List.mem_cons_self _ _)
    exact renderLoop_ptr_nil env _ r value sc last hk hreg hstr
  | cons t ts ih =>
    intro n
    obtain ⟨hk, hreg, hstr⟩ := h t (by simp)
    have h2 : ∀ u ∈ last :: ts,
        u.Kind = Kind.Ptr ∧ r.typeRenders u = none ∧ env.stringer u = none := by
      intro u hu
      apply h u
      rcases List.mem_cons.1 hu with hu1 | hu1
      · simp [hu1]
      · simp [hu1]
    have hfuel : n + (t :: ts).length + 1 = (n + ts.length + 1) + 1 := by
      simp only [List.length_cons]; omega
    rw [hfuel, nilChain, renderLoop_ptr_step env _ r value sc t _ hk hreg hstr]
    exact ih h2 n

theorem specRows_nil_of_hidden (R : Any → String × Outcome) (fields : List StructField)
    (vals : List Value)
    (h : ∀ p ∈ fields.zip vals, specFieldShown p.1 p.2 = false) :
    specRows R fields vals = [] := by
  simp only [specRows, List.map_eq_nil_iff, List.filter_eq_nil_iff]
  intro p hp
  simp [h p hp]

/-! ### Inline cells and the first failing cell -/

theorem joinWith_cons (sep a : String) (rest : List String) :
    joinWith sep (a :: rest) = a ++ joinAll (rest.map (fun s => sep ++ s)) := by
  induction rest generalizing a with
  | nil => simp [joinWith, joinAll, String_append_empty]
  | cons b rest ih =>
    simp only [joinWith, ih b, List.map_cons, joinAll, String_append_assoc]

theorem inlineLoop_tail (R : Any → String × Outcome) (es : List Value)
    (h : ∀ x ∈ es, (renderHumanValue R x.Interface).2 = .ok) :
    ∀ (j : Nat) (value : String), 0 < j →
      inlineLoop R es j value
        = (value ++ joinAll (es.map (fun x => ", " ++ (renderHumanValue R x.Interface).1)),
            .ok) := by
  induction es with
  | nil => intro j value _; simp [inlineLoop, joinAll, String_append_empty]
  | cons x xs ih =>
    intro j value hj
    have hx := h x (List.mem_cons_self _ _)
    rcases hr : renderHumanValue R x.Interface with ⟨str, o⟩
    rw [hr] at hx
    simp only at hx
    subst hx
    simp only [inlineLoop, hr, if_pos hj]
    rw [ih (fun y hy => h y (List.mem_cons_of_mem _ hy)) (j + 1) _ (Nat.succ_pos j)]
    simp only [List.map_cons, joinAll, hr, String_append_assoc]

theorem inlineLoop_join (R : Any → String × Outcome) (es : List Value)
    (h : ∀ x ∈ es, (renderHumanValue R x.Interface).2 = .ok) :
    inlineLoop R es 0 ""
      = (joinWith ", " (es.map (fun x => (renderHumanValue R x.Interface).1)), .ok) := by
  cases es with
  | nil => simp [inlineLoop, joinWith]
  | cons x xs =>
    have hx := h x (List.mem_cons_self _ _)
    rcases hr : renderHumanValue R x.Interface with ⟨str, o⟩
    rw [hr] at hx
    simp only at hx
    subst hx
    have h0 : ¬ (0 > 0) := by decide
    simp only [inlineLoop, hr, if_neg h0]
    rw [inlineLoop_tail R xs (fun y hy => h y (List.mem_cons_of_mem _ hy)) 1 _ Nat.one_pos]
    simp only [List.map_cons, joinWith_cons, hr, String_empty_append, List.map_map]
    rfl

theorem inlineLoop_fail (R : Any → String × Outcome) (pre : List Value) (y : Value)
    (post : List Value) (err : Outcome)
    (hpre : ∀ x ∈ pre, (renderHumanValue R x.Interface).2 = .ok)
    (hy : (renderHumanValue R y.Interface).2 = err) (herr : err ≠ .ok) :
    ∀ (j : Nat) (value : String), (inlineLoop R (pre ++ y :: post) j value).2 = err := by
  induction pre with
  | nil =>
    intro j value
    rcases hr : renderHumanValue R y.Interface with ⟨str, o⟩
    rw [hr] at hy
    simp only at hy
    subst hy
    simp only [List.nil_append, inlineLoop, hr]
  | cons x xs ih =>
    intro j value
    have hx := hpre x (List.mem_cons_self _ _)
    rcases hr : renderHumanValue R x.Interface with ⟨str, o⟩
    rw [hr] at hx
    simp only at hx
    subst hx
    simp only [List.cons_append, inlineLoop, hr]
    exact ih (fun z hz => hpre z (List.mem_cons_of_mem _ hz)) _ _

theorem renderRowLoop_fail (R : Any → String × Outcome) (item : Value)
    (fpre : List StructField) (field : StructField) (fpost : List StructField) (err : Outcome)
    (hshown : specColumn field = true) (herr : err ≠ .ok) :
    ∀ (i col : Nat) (row : List String),
      (∀ p ∈ (fpre.enumFrom i).filter (fun p => specColumn p.2),
        (renderCell R p.2 item p.1).2 = .ok) →
      (renderCell R field item (i + fpre.length)).2 = err →
      (renderRowLoop R item (fpre ++ field :: fpost) i col row).2 = err := by
  induction fpre with
  | nil =>
    intro i col row _ hcell
    simp only [List.length_nil, Nat.add_zero] at hcell
    rcases hr : renderCell R field item i with ⟨str, o⟩
    rw [hr] at hcell
    simp only at hcell
    subst hcell
    simp only [List.nil_append, renderRowLoop, shouldDisplayField_column, hshown, if_true, hr]
  | cons g gs ih =>
    intro i col row hok hcell
    have hlen : i + (g :: gs).length = (i + 1) + gs.length := by
      simp only [List.length_cons]; omega
    rw [hlen] at hcell
    simp only [List.cons_append, renderRowLoop, shouldDisplayField_column]
    by_cases hg : specColumn g = true
    · simp only [List.enumFrom_cons, List.filter_cons, hg, if_true] at hok
      have hcg := hok (i, g) (by simp)
      rcases hr : renderCell R g item i with ⟨str, o⟩
      rw [hr] at hcg
      simp only at hcg
      subst hcg
      rw [if_pos hg]
      simp only
      exact ih (i + 1) _ _ (fun p hp => hok p (List.mem_cons_of_mem _ hp)) hcell
    · have hg2 : specColumn g = false := by simpa using hg
      simp only [List.enumFrom_cons, List.filter_cons, hg2] at hok
      rw [if_neg hg]
      exact ih (i + 1) _ _ (by simpa using hok) hcell

theorem renderRowsLoop_fail (R : Any → String × Outcome) (tpe : GoType)
    (ipre : List Value) (x : Value) (ipost : List Value) (item : Value) (err : Outcome)
    (hrows : ∀ y ∈ ipre, ∃ it, unwrapItem y = some it
      ∧ ∀ p ∈ specColumns tpe.fields, (renderCell R p.2 it p.1).2 = .ok)
    (hitem : unwrapItem x = some item)
    (hrow : (renderRowLoop R item tpe.fields 0 0
      (List.replicate (computeHeaders tpe.fields).length "")).2 = err)
    (herr : err ≠ .ok) :
    ∀ table : Table,
      (renderRowsLoop R tpe (computeHeaders tpe.fields) (ipre ++ x :: ipost) table).2 = err := by
  induction ipre with
  | nil =>
    intro table
    rcases hr : renderRowLoop R item tpe.fields 0 0
      (List.replicate (computeHeaders tpe.fields).length "") with ⟨row, o⟩
    rw [hr] at hrow
    simp only at hrow
    subst hrow
    simp only [List.nil_append, renderRowsLoop, hitem, hr]
  | cons y ys ih =>
    intro table
    obtain ⟨it, hit, hcells⟩ := hrows y (List.mem_cons_self _ _)
    simp only [List.cons_append, renderRowsLoop, hit,
      renderRowLoop_row R tpe.fields y it hit hcells]
    exact ih (fun z hz => hrows z (List.mem_cons_of_mem _ hz)) _

/-! ### The fallback document renderer -/

theorem renderLoop_bool (env : Env) (n : Nat) (r : Renderer) (value : Any) (sc : Bool)
    (b : Bool) (hreg : r.typeRenders boolType = none) (hstr : env.stringer boolType = none) :
    renderLoop env (n + 1) r value (.bool boolType b) sc = renderAsYaml env r value := by
  simp only [renderLoop, Value.Type, hreg, Implements_false env _ hstr]
  simp [boolType, GoType.Kind]

theorem renderLoop_int (env : Env) (n : Nat) (r : Renderer) (value : Any) (sc : Bool)
    (i : Int) (hreg : r.typeRenders intType = none) (hstr : env.stringer intType = none) :
    renderLoop env (n + 1) r value (.int intType i) sc = renderAsYaml env r value := by
  simp only [renderLoop, Value.Type, hreg, Implements_false env _ hstr]
  simp [intType, GoType.Kind]

theorem renderAsYaml_buffer (env : Env) (value : Any) (lit : String) (d : env.Doc)
    (hj : env.jsonMarshal value = .ok lit) (hy : env.yamlUnmarshal lit = .ok d)
    (he : (env.yamlEncode 2 d).run Buffer = (bufferWith (lit ++ "\n"), .ok)) :
    renderAsYaml env (NewRenderer Buffer) value = (bufferWith (lit ++ "\n"), .ok) := by
  simp only [renderAsYaml, hj, hy, NewRenderer, he]

/-! ### The first failing element of a sequence -/

theorem forEach_append_fail (f : Sink → Value → Sink × Outcome) (pre : List Value)
    (x : Value) (post : List Value) (w1 w2 : Sink) (o : Outcome) (ho : o ≠ .ok) :
    ∀ w : Sink, forEach f pre w = (w1, .ok) → f w1 x = (w2, o) →
      forEach f (pre ++ x :: post) w = (w2, o) := by
  induction pre with
  | nil =>
    intro w hpre hx
    simp only [forEach, Prod.mk.injEq, and_true] at hpre
    subst hpre
    simp only [List.nil_append, forEach, hx]
    cases o
    · exact absurd rfl ho
    all_goals rfl
  | cons y ys ih =>
    intro w hpre hx
    simp only [List.cons_append, forEach] at hpre ⊢
    rcases hr : f w y with ⟨w3, o3⟩
    rw [hr] at hpre
    cases o3
    · simp only at hpre ⊢
      exact ih w3 hpre hx
    all_goals simp at hpre

theorem renderAsYaml_encode (env : Env) (r : Renderer) (value : Any) (json : String)
    (doc : env.Doc) (hj : env.jsonMarshal value = .ok json)
    (hy : env.yamlUnmarshal json = .ok doc) :
    renderAsYaml env r value = (env.yamlEncode 2 doc).run r.out := by
  simp only [renderAsYaml, hj, hy]

/-! ## Claims -/

/-- C1: a bare value whose concrete type has a registered type renderer and no
`RenderHuman` method is rendered by the registered function alone: sink and
outcome of `Renderer.Render` are those of the entry (after
`RegisterTypeRenderer`: of the registered function run on the renderer's
sink), whether or not the type has a `String` method. -/
theorem registered_renderer_wins (env : Env) (n : Nat) (r : Renderer) (T : GoType)
    (fn : RenderFn) (x : Value) (hT : x.Type = T) (hx : x.Interface = some x)
    (hself : env.selfRender T = none) :
    (RegisterTypeRenderer r T fn).Render env (n + 2) (some x) = (fn x).run r.out
    ∧ ∀ f, r.typeRenders T = some f → r.Render env (n + 2) (some x) = f r.out x := by
  subst hT
  constructor
  · rw [Renderer.Render, renderHuman_succ_of_plain env _ _ x _ hself]
    rw [renderLoop_registered env n _ _ x _ _ (by simp [RegisterTypeRenderer]; rfl)]
    simp [hx, RegisterTypeRenderer]
  · intro f hf
    rw [Renderer.Render, renderHuman_succ_of_plain env _ _ x _ hself]
    exact renderLoop_registered env n r _ x _ f hf

/-- C3: a bare value whose concrete type implements `RenderHuman` is rendered by
that method alone: sink and outcome (the error included, unchanged) are those
of the method run on the sink, whatever the registry and the `String` methods
are; this holds for `Renderer.Render` and for `Write`. -/
theorem selfRender_delegates (env : Env) (n : Nat) (r : Renderer) (x : Value)
    (f : Value → Prog) (h : env.selfRender x.Type = some f) :
    r.Render env (n + 1) (some x) = (f x).run r.out
    ∧ ∀ w : Sink, Write env (n + 1) w (some x) = (f x).run w := by
  constructor
  · simp [Renderer.Render, renderHuman, asRenderHuman_some env x f h]
  · intro w
    simp [Write, Renderer.Render, renderHuman, asRenderHuman_some env x f h, NewRenderer]

/-- C8: a value whose concrete type has a `String` method and no `RenderHuman`
method (the package-level `Render` has an empty registry) renders as its
`String()` result followed by one newline, without error, whatever its kind;
a renderer without entry for the type of the value and for `string` writes
that line to its sink. -/
theorem stringer_renders_line (env : Env) (n : Nat) (x : Value) (f : Value → String)
    (hx : x.Interface = some x) (hself : env.selfRender x.Type = none)
    (hstr : env.stringer x.Type = some f)
    (hs1 : env.selfRender stringType = none) (hs2 : env.stringer stringType = none) :
    Render env (n + 4) (some x) = (f x ++ "\n", .ok)
    ∧ ∀ r : Renderer, r.typeRenders x.Type = none → r.typeRenders stringType = none →
        r.Render env (n + 4) (some x) = Fprintln r.out (f x) := by
  have h1 : ∀ r : Renderer, r.typeRenders x.Type = none → r.typeRenders stringType = none →
      renderHuman env (n + 4) r (some x) false = Fprintln r.out (f x) := by
    intro r hr1 hr2
    rw [renderHuman_succ_of_plain env _ _ x _ hself,
      renderLoop_stringer env _ _ _ x _ f hx hr1 hstr,
      renderHuman_succ_of_plain env _ _ _ _ (by simpa [Value.Type] using hs1),
      renderLoop_string env _ _ _ _ _ hr2 hs2]
  refine ⟨?_, fun r hr1 hr2 => h1 r hr1 hr2⟩
  simp only [Render, renderToString, Renderer.Render, h1 (NewRenderer Buffer) rfl rfl]
  simp [NewRenderer, Buffer, Fprintln_Buffer, String_empty_append]

/-- C10: a value of the built-in string type renders as the string itself
followed by one newline, without error. -/
theorem string_renders_line (env : Env) (n : Nat) (s : String)
    (hs1 : env.selfRender stringType = none) (hs2 : env.stringer stringType = none) :
    Render env (n + 2) (some (.string stringType s)) = (s ++ "\n", .ok) := by
  have h1 : renderHuman env (n + 2) (NewRenderer Buffer) (some (.string stringType s)) false
      = Fprintln Buffer s := by
    rw [renderHuman_succ_of_plain env _ _ _ _ (by simpa [Value.Type] using hs1),
      renderLoop_string env _ _ _ _ _ (by simp [NewRenderer]) hs2]
    rfl
  simp only [Render, renderToString, Renderer.Render, h1]
  simp [Buffer, Fprintln_Buffer, String_empty_append]

/-- C7: when `Render` of a value succeeds with text `s`, `renderHumanValue`
returns `t`, the text `s` without its trailing whitespace (`s` is `t` followed
by whitespace only, and `t` does not end in whitespace), when `t` has no line
break, and `t` followed by one newline when it has one; when `Render` fails,
the helper returns the empty string and that failure. -/
theorem renderHumanValue_trims (env : Env) (n : Nat) (value : Any) :
    (∀ s, Render env n value = (s, .ok) →
      (∃ ws : String, s = strings.TrimRightFunc s unicode.IsSpace ++ ws
          ∧ ∀ c ∈ ws.data, unicode.IsSpace c = true)
      ∧ (∀ c, (strings.TrimRightFunc s unicode.IsSpace).data.getLast? = some c
          → unicode.IsSpace c = false)
      ∧ renderHumanValue (Render env n) value
          = (if '\n' ∈ (strings.TrimRightFunc s unicode.IsSpace).data
              then strings.TrimRightFunc s unicode.IsSpace ++ "\n"
              else strings.TrimRightFunc s unicode.IsSpace, .ok))
    ∧ (∀ s err, Render env n value = (s, err) → err ≠ .ok →
      renderHumanValue (Render env n) value = ("", err)) := by
  constructor
  · intro s h
    refine ⟨TrimRightFunc_split s _, TrimRightFunc_last s _, ?_⟩
    simp only [renderHumanValue, h]
    by_cases hc : '\n' ∈ (strings.TrimRightFunc s unicode.IsSpace).data
    · rw [if_pos ((Contains_newline_iff _).2 hc), if_pos hc]
    · rw [if_neg (fun h0 => hc ((Contains_newline_iff _).1 h0)), if_neg hc]
  · intro s err h herr
    cases err <;> simp [renderHumanValue, h] at herr ⊢

/-- C5: the headers of the sequence-of-records table are the names, each
followed by two spaces, of the fields that are exported and whose tag does not
contain "skip-column", in declaration order, and these are the headers set on
the table; an exported field tagged only "skip-field" is a column and is never
shown in the vertical rendering, an exported field tagged only "skip-column"
is no column and is shown in the vertical rendering whenever its value is
present. -/
theorem headers_are_columns (Render : Any → String × Outcome) (value : Value) (tpe : GoType) :
    computeHeaders tpe.fields = (tpe.fields.filter specColumn).map (fun f => f.Name ++ "  ")
    ∧ (buildStructList Render value tpe false).1.headers = some (computeHeaders tpe.fields)
    ∧ (∀ field : StructField, field.IsExported = true →
        field.Tag.Get humanTag = "skip-field" →
        shouldDisplayField field contextColumn = true
          ∧ shouldDisplayField field contextField = false
          ∧ ∀ v, (shouldDisplayField field contextField && shouldDisplayValue v) = false)
    ∧ (∀ field : StructField, field.IsExported = true →
        field.Tag.Get humanTag = "skip-column" →
        shouldDisplayField field contextColumn = false
          ∧ shouldDisplayField field contextField = true
          ∧ ∀ v, (shouldDisplayField field contextField && shouldDisplayValue v)
              = shouldDisplayValue v) := by
  refine ⟨computeHeaders_filter _, ?_, ?_, ?_⟩
  · simp only [buildStructList]
    split
    · rfl
    · rw [renderRowsLoop_headers]; rfl
  · intro field hexp htag
    have h1 : shouldDisplayField field contextColumn = true := by
      rw [shouldDisplayField_column, specColumn, hexp, htag]
      decide
    have h2 : shouldDisplayField field contextField = false := by
      rw [shouldDisplayField_field, hexp, htag]
      decide
    exact ⟨h1, h2, fun v => by rw [h2]; rfl⟩
  · intro field hexp htag
    have h1 : shouldDisplayField field contextColumn = false := by
      rw [shouldDisplayField_column, specColumn, hexp, htag]
      decide
    have h2 : shouldDisplayField field contextField = true := by
      rw [shouldDisplayField_field, hexp, htag]
      decide
    exact ⟨h1, h2, fun v => by rw [h2]; simp⟩

/-- C4: for a struct value without `RenderHuman` method, registry entry or
`String` method whose shown fields render without error, the record renderer
hands the table writer one row per field, in declaration order, for the fields
that are exported, whose tag does not contain "skip-field" and whose value is
present (nil-able kinds: not nil; other kinds: always); each row is the field
name followed by " : " and the helper-rendered value, and that table is what
is written when it has a row.  An unexported field, a field tagged
"skip-field" and a nil pointer field are not shown. -/
theorem record_rows (env : Env) (n : Nat) (r : Renderer) (t : GoType) (vals : List Value)
    (hk : t.Kind = Kind.Struct) (hlen : t.fields.length = vals.length)
    (hself : env.selfRender t = none) (hreg : r.typeRenders t = none)
    (hstr : env.stringer t = none)
    (hok : ∀ p ∈ t.fields.zip vals, specFieldShown p.1 p.2 = true →
      (renderHumanValue (Render env n) p.2.Interface).2 = .ok) :
    renderStructLoop (Render env n) (.struct t vals) t.fields 0 false recordTable
        = ((!(specRows (Render env n) t.fields vals).isEmpty,
            { recordTable with rows := specRows (Render env n) t.fields vals }), .ok)
    ∧ (specRows (Render env n) t.fields vals ≠ [] →
        r.Render env (n + 2) (some (.struct t vals))
          = (Table.Render env
              { recordTable with rows := specRows (Render env n) t.fields vals } r.out, .ok))
    ∧ (∀ (f : StructField) (v : Value), f.IsExported = false → specFieldShown f v = false)
    ∧ (∀ (f : StructField) (v : Value),
        strings.Contains (f.Tag.Get humanTag) "skip-field" = true → specFieldShown f v = false)
    ∧ (∀ (f : StructField) (pt : GoType), pt.Kind = Kind.Ptr →
        specFieldShown f (.pointer pt none) = false) := by
  have hloop := renderStructLoop_spec (Render env n) t t.fields [] vals false recordTable
    (by omega) hok
  simp only [List.nil_append, List.length_nil, Bool.false_or] at hloop
  have hloop2 : renderStructLoop (Render env n) (.struct t vals) t.fields 0 false recordTable
        = ((!(specRows (Render env n) t.fields vals).isEmpty,
            { recordTable with rows := specRows (Render env n) t.fields vals }), .ok) := by
    rw [hloop]; rfl
  refine ⟨hloop2, ?_, ?_, ?_, ?_⟩
  · intro hne
    rw [Renderer.Render, renderHuman_succ_of_plain env _ _ _ _ (by simpa [Value.Type] using hself),
      renderLoop_struct env n r _ _ _ (by simpa [Value.Type] using hk)
        (by simpa [Value.Type] using hreg) (by simpa [Value.Type] using hstr)]
    simp only [renderStruct, Value.Type, hloop2]
    have : (specRows (Render env n) t.fields vals).isEmpty = false := by
      cases h : specRows (Render env n) t.fields vals with
      | nil => exact absurd h hne
      | cons a b => rfl
    simp [this]
  · intro f v h
    simp [specFieldShown, h]
  · intro f v h
    simp [specFieldShown, h]
  · intro f pt h
    simp [specFieldShown, specPresent, Value.Type, h, Value.IsNil]

/-- C6: for a sequence of structs, or of non-nil pointers to structs, whose
cells all render without error, the sequence-of-records renderer appends one
row per element, in element order; every row has as many cells as there are
headers, and its cells are, in header order, the rendering of the displayed
fields followed by three spaces; this holds with and without header
suppression, and the table so built is the one written. -/
theorem list_rows (env : Env) (n : Nat) (r : Renderer) (t tpe : GoType) (items : List Value)
    (skipHeader : Bool)
    (hok : ∀ x ∈ items, ∃ item, unwrapItem x = some item
      ∧ ∀ p ∈ specColumns tpe.fields, (renderCell (Render env n) p.2 item p.1).2 = .ok) :
    buildStructList (Render env n) (.slice t (some items)) tpe skipHeader
        = ({ listTable with
              headers := if skipHeader then none else some (computeHeaders tpe.fields),
              rows := items.map (specRow (Render env n) tpe.fields) }, .ok)
    ∧ computeHeaders tpe.fields = (specColumns tpe.fields).map (fun p => p.2.Name ++ "  ")
    ∧ (∀ x ∈ items, ∃ item, unwrapItem x = some item
        ∧ specRow (Render env n) tpe.fields x
          = (specColumns tpe.fields).map
              (fun p => (renderCell (Render env n) p.2 item p.1).1 ++ "   ")
        ∧ (specRow (Render env n) tpe.fields x).length = (computeHeaders tpe.fields).length)
    ∧ (items.map (specRow (Render env n) tpe.fields)).length = items.length
    ∧ renderStructList env (Render env n) r (.slice t (some items)) tpe skipHeader
        = (Table.Render env
            { listTable with
              headers := if skipHeader then none else some (computeHeaders tpe.fields),
              rows := items.map (specRow (Render env n) tpe.fields) } r.out, .ok) := by
  have hbuild : buildStructList (Render env n) (.slice t (some items)) tpe skipHeader
        = ({ listTable with
              headers := if skipHeader then none else some (computeHeaders tpe.fields),
              rows := items.map (specRow (Render env n) tpe.fields) }, .ok) := by
    simp only [buildStructList, Value.elems]
    rw [renderRowsLoop_spec (Render env n) tpe items _ hok]
    cases skipHeader <;> simp [listTable, Table.SetHeader]
  refine ⟨hbuild, computeHeaders_eq _, ?_, by simp, ?_⟩
  · intro x hx
    obtain ⟨item, hitem, _⟩ := hok x hx
    exact ⟨item, hitem, by simp [specRow, hitem],
      specRow_length (Render env n) tpe.fields x item hitem⟩
  · simp only [renderStructList, hbuild]

/-- C9: a slice value without `RenderHuman` or `String` method whose element
type, after pointer unwrapping, is not a struct without `String` method (the
package-level `Render` has an empty registry) renders, when each element
renders successfully, as the concatenation in element order of the renderings
of its elements; the empty and the nil slice render as the empty text.  For a
renderer without entry for the slice type and the element type, the elements
are rendered one after the other onto the sink. -/
theorem sequence_concat (env : Env) (t elem : GoType) (items : List Value)
    (out : Value → String)
    (hk : t.Kind = Kind.Slice) (hself : env.selfRender t = none)
    (hstr : env.stringer t = none) (helem : t.Elem.bind unwrapPtrType = some elem)
    (hne : elem.Kind = Kind.Struct → env.Implements elem = true)
    (hok : ∀ x ∈ items, Renders env x.Interface (out x)) :
    Renders env (some (.slice t (some items))) (joinAll (items.map out))
    ∧ (∀ n, (∀ x ∈ items, Render env n x.Interface = (out x, .ok)) →
        Render env (n + 2) (some (.slice t (some items))) = (joinAll (items.map out), .ok))
    ∧ (∀ n, Render env (n + 2) (some (.slice t (some []))) = ("", .ok))
    ∧ (∀ n, Render env (n + 2) (some (.slice t none)) = ("", .ok))
    ∧ (∀ (n : Nat) (r : Renderer), r.typeRenders t = none → r.typeRenders elem = none →
        r.Render env (n + 2) (some (.slice t (some items)))
          = forEach (fun w x => Renderer.Render env n { r with out := w } x.Interface)
              items r.out) := by
  have hloop : ∀ (n : Nat) (r : Renderer) (es : Option (List Value)) (l : List Value),
      (Value.slice t es).elems = some l →
      r.typeRenders t = none → r.typeRenders elem = none →
      renderHuman env (n + 2) r (some (.slice t es)) false
        = forEach (fun w x => renderHuman env n { r with out := w } x.Interface false)
            l r.out := by
    intro n r es l hl h1 h2
    rw [renderHuman_succ_of_plain env _ _ _ _ (by simpa [Value.Type] using hself)]
    exact renderLoop_slice_each env n r _ _ l _ elem (by simpa [Value.Type] using hk) hl
      (by simpa [Value.Type] using h1) (by simpa [Value.Type] using hstr)
      (by simpa [Value.Type] using helem) h2 hne
  have hfix : ∀ (n : Nat) (es : Option (List Value)) (l : List Value),
      (Value.slice t es).elems = some l →
      (∀ x ∈ l, Render env n x.Interface = (out x, .ok)) →
      Render env (n + 2) (some (.slice t es)) = (joinAll (l.map out), .ok) := by
    intro n es l hl h
    simp only [Render, renderToString, Renderer.Render]
    rw [hloop n (NewRenderer Buffer) es l hl rfl rfl]
    have := forEach_concat env n out l h ""
    simp only [NewRenderer, Buffer] at this ⊢
    simp only [bufferWith] at this
    rw [this]
    simp [String_empty_append]
  refine ⟨?_, fun n h => hfix n _ items rfl h, fun n => ?_, fun n => ?_, ?_⟩
  · obtain ⟨n, hn⟩ := Renders_common_fuel env out items hok
    exact ⟨n + 2, hfix n _ items rfl hn⟩
  · simpa [joinAll] using hfix n (some []) [] rfl (fun x hx => by simp at hx)
  · simpa [joinAll] using hfix n none [] rfl (fun x hx => by simp at hx)
  · intro n r h1 h2
    exact hloop n r _ items rfl h1 h2

/-- C11: the untyped nil renders as the empty text without error, and a nil
pointer reached through any number of non-nil pointers, none of the pointer
types having a `RenderHuman` method, a registry entry or a `String` method,
writes nothing and returns no error. -/
theorem nil_renders_nothing (env : Env) (n : Nat) (r : Renderer) (ts : List GoType)
    (last : GoType)
    (h : ∀ t ∈ last :: ts, t.Kind = Kind.Ptr ∧ env.selfRender t = none
      ∧ r.typeRenders t = none ∧ env.stringer t = none) :
    Render env (n + 1) none = ("", .ok)
    ∧ r.Render env (n + 1) none = (r.out, .ok)
    ∧ r.Render env (n + ts.length + 2) (some (nilChain ts last)) = (r.out, .ok)
    ∧ Render env (n + ts.length + 2) (some (nilChain ts last)) = ("", .ok) := by
  have htop : env.selfRender (nilChain ts last).Type = none := by
    cases ts with
    | nil => exact (h last (by simp)).2.1
    | cons t ts => exact (h t (by simp)).2.1
  refine ⟨?_, ?_, ?_, ?_⟩
  · simp [Render, renderToString, Renderer.Render, renderHuman, asRenderHuman, ValueOf,
      NewRenderer, Buffer]
  · simp [Renderer.Render, renderHuman, asRenderHuman, ValueOf]
  · rw [Renderer.Render, renderHuman_succ_of_plain env _ _ _ _ htop]
    exact renderLoop_nilChain env r _ _ ts last
      (fun t ht => ⟨(h t ht).1, (h t ht).2.2.1, (h t ht).2.2.2⟩) n
  · simp only [Render, renderToString, Renderer.Render]
    rw [renderHuman_succ_of_plain env _ _ _ _ htop,
      renderLoop_nilChain env (NewRenderer Buffer) _ _ ts last
        (fun t ht => ⟨(h t ht).1, rfl, (h t ht).2.2.2⟩) n]
    rfl

/-- C12: a struct value without `RenderHuman` method, registry entry or `String`
method none of whose fields is shown (exported, without "skip-field" and
present) hands no row to the table writer, renders no table, and writes one
line: its default textual representation followed by one newline. -/
theorem record_without_rows (env : Env) (n : Nat) (r : Renderer) (t : GoType)
    (vals : List Value)
    (hk : t.Kind = Kind.Struct) (hlen : t.fields.length = vals.length)
    (hself : env.selfRender t = none) (hreg : r.typeRenders t = none)
    (hstr : env.stringer t = none)
    (hnone : ∀ p ∈ t.fields.zip vals, specFieldShown p.1 p.2 = false) :
    renderStructLoop (Render env n) (.struct t vals) t.fields 0 false recordTable
        = ((false, recordTable), .ok)
    ∧ r.Render env (n + 2) (some (.struct t vals))
        = Fprintln r.out (env.sprint (some (.struct t vals)))
    ∧ Render env (n + 2) (some (.struct t vals))
        = (env.sprint (some (.struct t vals)) ++ "\n", .ok) := by
  have hrows := specRows_nil_of_hidden (Render env n) t.fields vals hnone
  have hloop := renderStructLoop_spec (Render env n) t t.fields [] vals false recordTable
    (by omega) (fun p hp hs => by rw [hnone p hp] at hs; exact absurd hs (by simp))
  simp only [List.nil_append, List.length_nil, Bool.false_or, hrows, List.isEmpty_nil,
    Bool.not_true, List.append_nil] at hloop
  have hloop2 : renderStructLoop (Render env n) (.struct t vals) t.fields 0 false recordTable
      = ((false, recordTable), .ok) := by
    rw [hloop]
  have hrender : ∀ r2 : Renderer, r2.typeRenders t = none →
      renderHuman env (n + 2) r2 (some (.struct t vals)) false
        = Fprintln r2.out (env.sprint (some (.struct t vals))) := by
    intro r2 hr2
    rw [renderHuman_succ_of_plain env _ _ _ _ (by simpa [Value.Type] using hself),
      renderLoop_struct env n r2 _ _ _ (by simpa [Value.Type] using hk)
        (by simpa [Value.Type] using hr2) (by simpa [Value.Type] using hstr)]
    simp [renderStruct, Value.Type, hloop2, Value.Interface]
  refine ⟨hloop2, hrender r hreg, ?_⟩
  simp only [Render, renderToString, Renderer.Render, hrender (NewRenderer Buffer) rfl]
  simp [NewRenderer, Buffer, Fprintln_Buffer, String_empty_append]

/-- C13: in the sequence-of-records renderer the cell of a displayed field
whose declared type is a slice and whose tag contains "inline" is the
helper-rendered sub-elements joined with ", " in element order (the empty
text for an empty sub-sequence); the cell of any other displayed field is the
helper rendering of the field value; the row stores each cell followed by
three spaces; and the first failing sub-element makes the whole render return
its failure, nothing being written. -/
theorem inline_cells (env : Env) (n : Nat) :
    (∀ (field : StructField) (item f : Value) (i : Nat) (es : List Value),
      field.Type_.Kind = Kind.Slice →
      strings.Contains (field.Tag.Get humanTag) "inline" = true →
      item.Field i = some f → f.elems = some es →
      (∀ x ∈ es, (renderHumanValue (Render env n) x.Interface).2 = .ok) →
      renderCell (Render env n) field item i
        = (joinWith ", " (es.map (fun x => (renderHumanValue (Render env n) x.Interface).1)),
            .ok))
    ∧ (∀ (field : StructField) (item f : Value) (i : Nat),
      field.Type_.Kind = Kind.Slice →
      strings.Contains (field.Tag.Get humanTag) "inline" = true →
      item.Field i = some f → f.elems = some [] →
      renderCell (Render env n) field item i = ("", .ok))
    ∧ (∀ (field : StructField) (item f : Value) (i : Nat),
      ¬ (field.Type_.Kind = Kind.Slice
        ∧ strings.Contains (field.Tag.Get humanTag) "inline" = true) →
      item.Field i = some f →
      renderCell (Render env n) field item i = renderHumanValue (Render env n) f.Interface)
    ∧ (∀ (fields : List StructField) (x item : Value),
      unwrapItem x = some item →
      (∀ p ∈ specColumns fields, (renderCell (Render env n) p.2 item p.1).2 = .ok) →
      renderRowLoop (Render env n) item fields 0 0
          (List.replicate (computeHeaders fields).length "")
        = ((specColumns fields).map
            (fun p => (renderCell (Render env n) p.2 item p.1).1 ++ "   "), .ok))
    ∧ (∀ (r : Renderer) (t tpe : GoType) (skipHeader : Bool)
        (ipre : List Value) (x : Value) (ipost : List Value) (item f : Value)
        (fpre : List StructField) (field : StructField) (fpost : List StructField)
        (pre : List Value) (y : Value) (post : List Value) (err : Outcome),
      tpe.fields = fpre ++ field :: fpost →
      (∀ z ∈ ipre, ∃ it, unwrapItem z = some it
        ∧ ∀ p ∈ specColumns tpe.fields, (renderCell (Render env n) p.2 it p.1).2 = .ok) →
      unwrapItem x = some item →
      (∀ p ∈ (fpre.enumFrom 0).filter (fun p => specColumn p.2),
        (renderCell (Render env n) p.2 item p.1).2 = .ok) →
      specColumn field = true →
      field.Type_.Kind = Kind.Slice →
      strings.Contains (field.Tag.Get humanTag) "inline" = true →
      item.Field fpre.length = some f → f.elems = some (pre ++ y :: post) →
      (∀ z ∈ pre, (renderHumanValue (Render env n) z.Interface).2 = .ok) →
      (renderHumanValue (Render env n) y.Interface).2 = err → err ≠ .ok →
      renderStructList env (Render env n) r (.slice t (some (ipre ++ x :: ipost))) tpe skipHeader
        = (r.out, err)) := by
  refine ⟨?_, ?_, ?_, ?_, ?_⟩
  · intro field item f i es hs hi hf hes hok
    simp only [renderCell, hs, hi, hf, hes]
    simpa using inlineLoop_join (Render env n) es hok
  · intro field item f i hs hi hf hes
    simp only [renderCell, hs, hi, hf, hes]
    simp [inlineLoop]
  · intro field item f i hno hf
    have hcond : (decide (field.Type_.Kind = Kind.Slice)
        && strings.Contains (field.Tag.Get humanTag) "inline") = false := by
      by_cases h1 : field.Type_.Kind = Kind.Slice
      · have h2 : strings.Contains (field.Tag.Get humanTag) "inline" = false := by
          cases h3 : strings.Contains (field.Tag.Get humanTag) "inline"
          · rfl
          · exact absurd ⟨h1, h3⟩ hno
        simp [h2]
      · simp [h1]
    simp only [renderCell, hcond, hf]
    simp
  · intro fields x item hitem hok
    rw [renderRowLoop_row (Render env n) fields x item hitem hok]
    simp [specRow, hitem]
  · intro r t tpe skipHeader ipre x ipost item f fpre field fpost pre y post err
      hfields hrows hitem hcols hshown hs hi hf hes hpre hy herr
    have hcell : (renderCell (Render env n) field item (0 + fpre.length)).2 = err := by
      simp only [Nat.zero_add, renderCell, hs, hi, hf, hes]
      simpa using inlineLoop_fail (Render env n) pre y post err hpre hy herr 0 ""
    have hrow : (renderRowLoop (Render env n) item tpe.fields 0 0
        (List.replicate (computeHeaders tpe.fields).length "")).2 = err := by
      rw [hfields]
      exact renderRowLoop_fail (Render env n) item fpre field fpost err hshown herr 0 0 _
        hcols hcell
    have hloop := renderRowsLoop_fail (Render env n) tpe ipre x ipost item err hrows hitem
      hrow herr
    rcases hb : buildStructList (Render env n) (.slice t (some (ipre ++ x :: ipost))) tpe
      skipHeader with ⟨table, o⟩
    have ho : o = err := by
      have h2 : (buildStructList (Render env n) (.slice t (some (ipre ++ x :: ipost))) tpe
          skipHeader).2 = err := by
        simp only [buildStructList, Value.elems]
        exact hloop _
      rw [hb] at h2
      exact h2
    subst ho
    simp only [renderStructList, hb]

/-- C14: with `encoding/json` and `yaml.v3` behaving on booleans and integers
as stated in `ScalarDocuments`, `Render` of a boolean returns "true" or
"false" and one newline, and `Render` of an integer returns its decimal text
and one newline; both values are rendered by `renderAsYaml`, no capability
and no case of the kind switch applying. -/
theorem scalars_via_fallback (env : Env) (n : Nat) (hdoc : ScalarDocuments env)
    (hb1 : env.selfRender boolType = none) (hb2 : env.stringer boolType = none)
    (hi1 : env.selfRender intType = none) (hi2 : env.stringer intType = none) :
    (∀ b : Bool, Render env (n + 2) (some (.bool boolType b)) = (boolText b ++ "\n", .ok))
    ∧ (∀ i : Int, Render env (n + 2) (some (.int intType i)) = (decimal i ++ "\n", .ok))
    ∧ (∀ (r : Renderer) (b : Bool), r.typeRenders boolType = none →
        r.Render env (n + 2) (some (.bool boolType b))
          = renderAsYaml env r (some (.bool boolType b)))
    ∧ (∀ (r : Renderer) (i : Int), r.typeRenders intType = none →
        r.Render env (n + 2) (some (.int intType i))
          = renderAsYaml env r (some (.int intType i))) := by
  obtain ⟨hjb, hji, hyb, hyi⟩ := hdoc
  have hB : ∀ (r : Renderer) (b : Bool), r.typeRenders boolType = none →
      renderHuman env (n + 2) r (some (.bool boolType b)) false
        = renderAsYaml env r (some (.bool boolType b)) := by
    intro r b hr
    rw [renderHuman_succ_of_plain env _ _ _ _ (by simpa [Value.Type] using hb1)]
    exact renderLoop_bool env n r _ _ b hr hb2
  have hI : ∀ (r : Renderer) (i : Int), r.typeRenders intType = none →
      renderHuman env (n + 2) r (some (.int intType i)) false
        = renderAsYaml env r (some (.int intType i)) := by
    intro r i hr
    rw [renderHuman_succ_of_plain env _ _ _ _ (by simpa [Value.Type] using hi1)]
    exact renderLoop_int env n r _ _ i hr hi2
  refine ⟨?_, ?_, hB, hI⟩
  · intro b
    obtain ⟨d, hd, he⟩ := hyb b
    simp only [Render, renderToString, Renderer.Render, hB (NewRenderer Buffer) b rfl,
      renderAsYaml_buffer env _ _ d (hjb b) hd he]
    rfl
  · intro i
    obtain ⟨d, hd, he⟩ := hyi i
    simp only [Render, renderToString, Renderer.Render, hI (NewRenderer Buffer) i rfl,
      renderAsYaml_buffer env _ _ d (hji i) hd he]
    rfl

/-- C15, the code at the failing input: an error of the JSON marshalling step
comes back wrapped with the message of that step, but an error of the
encoding step (here: the writer fails) comes back as the encoder returned it,
without any wrapping; in general, once marshalling and decoding succeed the
result of `renderAsYaml` is the result of the encoder itself. -/
theorem encode_error_not_wrapped :
    Write sampleEnv 2 failingSink (some chanValue)
        = (failingSink,
            .error (.wrap "error marshaling into JSON" (.new "json: unsupported type")))
    ∧ Write sampleEnv 2 failingSink (some (.bool boolType true))
        = (failingSink, .error (.new "short write"))
    ∧ GoError.isWrap (.new "short write") = false
    ∧ (∀ (env : Env) (r : Renderer) (value : Any) (json : String) (doc : env.Doc),
        env.jsonMarshal value = .ok json → env.yamlUnmarshal json = .ok doc →
        renderAsYaml env r value = (env.yamlEncode 2 doc).run r.out) :=
  ⟨rfl, rfl, rfl, fun env r value json doc hj hy => renderAsYaml_encode env r value json doc hj hy⟩

/-- C16: when a slice is rendered element by element through `Write`, the
elements before element k render completely and element k is the first to
fail, with error `e`, then `Write` returns `e` and leaves the sink as element
k left it (the complete outputs of the elements before k and what element k
wrote), whatever elements follow k; the package-level `Render` then returns
the empty string and `e`. -/
theorem first_failure_stops (env : Env) (n : Nat) (t elem : GoType)
    (pre : List Value) (x : Value) (post : List Value) (w w1 w2 : Sink) (e : GoError)
    (hk : t.Kind = Kind.Slice) (hself : env.selfRender t = none)
    (hstr : env.stringer t = none) (helem : t.Elem.bind unwrapPtrType = some elem)
    (hne : elem.Kind = Kind.Struct → env.Implements elem = true)
    (hpre : forEach (fun out y => Write env n out y.Interface) pre w = (w1, .ok))
    (hx : Write env n w1 x.Interface = (w2, .error e)) :
    Write env (n + 2) w (some (.slice t (some (pre ++ x :: post)))) = (w2, .error e)
    ∧ (w = Buffer →
        Render env (n + 2) (some (.slice t (some (pre ++ x :: post)))) = ("", .error e)) := by
  have hW : Write env (n + 2) w (some (.slice t (some (pre ++ x :: post))))
      = (w2, .error e) := by
    simp only [Write, Renderer.Render]
    rw [renderHuman_succ_of_plain env _ _ _ _ (by simpa [Value.Type] using hself),
      renderLoop_slice_each env n (NewRenderer w) _ (.slice t (some (pre ++ x :: post)))
        (pre ++ x :: post) _ elem
        (by simpa [Value.Type] using hk) rfl rfl (by simpa [Value.Type] using hstr)
        (by simpa [Value.Type] using helem) rfl hne]
    exact forEach_append_fail _ pre x post w1 w2 (.error e) (by simp) w hpre hx
  refine ⟨hW, fun hw => ?_⟩
  subst hw
  have hW2 : renderHuman env (n + 2) (NewRenderer Buffer)
      (some (.slice t (some (pre ++ x :: post)))) false = (w2, .error e) := hW
  simp only [Render, renderToString, Renderer.Render, hW2]

/-- C17, the code at the failing input: `Badge` and `*Badge` have a `RenderHuman`
method and `**Badge` has none; a `*Badge` value is rendered by `RenderHuman`,
but a `**Badge` value is unwrapped twice without the method being looked up
again and is rendered by the record renderer (here by its fallback line); in
general an iteration on a non-nil pointer goes on with the loop on the
pointed-to value, whatever `RenderHuman` methods there are. -/
theorem selfRender_not_rechecked :
    methodsEnv.selfRender (ptrTo (ptrTo badgeType)) = none
    ∧ (methodsEnv.selfRender (ptrTo badgeType)).isSome = true
    ∧ (methodsEnv.selfRender badgeType).isSome = true
    ∧ Render methodsEnv 6 (some badgePtr) = ("badge\n", .ok)
    ∧ Render methodsEnv 6 (some badgePtrPtr) = ("<struct>\n", .ok)
    ∧ (∀ (env : Env) (n : Nat) (r : Renderer) (value : Any) (sc : Bool) (t : GoType)
        (w : Value), t.Kind = Kind.Ptr → r.typeRenders t = none → env.stringer t = none →
        renderLoop env (n + 1) r value (.pointer t (some w)) sc
          = renderLoop env n r value w sc) :=
  ⟨rfl, rfl, rfl, rfl, rfl,
    fun env n r value sc t w hk hreg hstr => renderLoop_ptr_step env n r value sc t w hk hreg hstr⟩

/-- C18, the code at the failing input: a slice of records that is the value of
a struct field, or of a column of an outer slice of records, is rendered into
its cell with its header row: the cell starts with the header line, as the
top-level rendering of the same slice does, because the helper always renders
through `Render`, which passes `false` for the header suppression. -/
theorem nested_table_keeps_header :
    Render sampleEnv 4 (some animalsSlice)
        = ("Beaver  |Camel  \nhello   |true   \nworld   |false   \n", .ok)
    ∧ renderStructLoop (Render sampleEnv 4) outer outerType.fields 0 false recordTable
        = ((true,
            { recordTable with
              rows := [["Items : ", "Beaver  |Camel  \nhello   |true   \nworld   |false\n"]] }),
          .ok)
    ∧ buildStructList (Render sampleEnv 4) outerSlice outerType false
        = ({ listTable with
              headers := some ["Items  "],
              rows := [["Beaver  |Camel  \nhello   |true   \nworld   |false\n   "]] }, .ok)
    ∧ renderStructList sampleEnv (Render sampleEnv 2) (NewRenderer Buffer) animalsSlice
          animalsType true
        = (bufferWith "hello   |true   \nworld   |false   \n", .ok)
    ∧ (∀ (env : Env) (n : Nat) (value : Any),
        Render env n value = renderToString (fun r v => renderHuman env n r v false) value) :=
  ⟨rfl, rfl, rfl, rfl, fun _ _ _ => rfl⟩

/-- C19, the code at the failing input: with a render function registered for
`Person`, a bare `*Person` is unwrapped and rendered by that function, but a
`[]*Person` with a non-nil element ends in a panic: the entry found for the
unwrapped element type is handed the pointer element itself, and its type
assertion to `Person` fails.  The same happens for a `[]**Person`, whose
element type unwraps to `Person` as well. -/
theorem pointer_slice_entry_panics :
    (customFn person).run Buffer = (bufferWith "custom", .ok)
    ∧ (RegisterTypeRenderer (NewRenderer Buffer) personType customFn).Render sampleEnv 4
        (some (.pointer (ptrTo personType) (some person)))
      = (bufferWith "custom", .ok)
    ∧ (sliceOf (ptrTo personType)).Elem.bind unwrapPtrType = some personType
    ∧ (RegisterTypeRenderer (NewRenderer Buffer) personType customFn).Render sampleEnv 4
        (some personPtrSlice)
      = (Buffer, .panic "interface conversion: interface holds a different type")
    ∧ (sliceOf (ptrTo (ptrTo personType))).Elem.bind unwrapPtrType = some personType
    ∧ (RegisterTypeRenderer (NewRenderer Buffer) personType customFn).Render sampleEnv 4
        (some personPtrPtrSlice)
      = (Buffer, .panic "interface conversion: interface holds a different type") :=
  ⟨rfl, rfl, rfl, rfl, rfl, rfl⟩

/-- C20, the code at the failing input: a `[]*A` with a nil element makes the
sequence-of-records renderer panic (`Type()` on the zero Value that `Elem()`
returns for the nil pointer), while a bare nil `*A` renders as nothing. -/
theorem nil_element_panics :
    unwrapItem (.pointer (ptrTo animalsType) none) = none
    ∧ Render sampleEnv 6 (some animalsPtrSlice)
        = ("", .panic "reflect: call of reflect.Value.Type on zero Value")
    ∧ Render sampleEnv 6 (some (.pointer (ptrTo animalsType) none)) = ("", .ok) :=
  ⟨rfl, rfl, rfl⟩

/-! ## The claims on sample inputs -/

theorem registered_renderer_wins_witness :
    (Value.int durationType 1000000000).Type = durationType
    ∧ (Value.int durationType 1000000000).Interface = some (Value.int durationType 1000000000)
    ∧ sampleEnv.selfRender durationType = none
    ∧ (RegisterTypeRenderer (NewRenderer Buffer) durationType customFn).Render sampleEnv 2
        (some (.int durationType 1000000000)) = (bufferWith "custom", .ok) :=
  ⟨rfl, rfl, rfl,
    (registered_renderer_wins sampleEnv 0 (NewRenderer Buffer) durationType customFn
      (.int durationType 1000000000) rfl rfl rfl).1.trans rfl⟩

/-- C2, the code at the failing input: with a render function registered for
`string`, the renderer sends a bare string through that function, but renders
the string field of a struct, and the string cells of a slice of structs, by
the built-in dispatch: the cells are the strings themselves. -/
theorem registry_not_used_in_cells :
    (RegisterTypeRenderer (NewRenderer Buffer) stringType customFn).Render sampleEnv 4
        (some (.string stringType "bob")) = (bufferWith "custom", .ok)
    ∧ (RegisterTypeRenderer (NewRenderer Buffer) stringType customFn).Render sampleEnv 4
        (some person)
      = (Table.Render sampleEnv { recordTable with rows := [["Name : ", "bob"]] } Buffer, .ok)
    ∧ (RegisterTypeRenderer (NewRenderer Buffer) stringType customFn).Render sampleEnv 4
        (some animalsSlice)
      = (Table.Render sampleEnv
          { listTable with
            headers := some ["Beaver  ", "Camel  "],
            rows := [["hello   ", "true   "], ["world   ", "false   "]] } Buffer, .ok) :=
  ⟨rfl, rfl, rfl⟩

theorem selfRender_delegates_witness :
    sampleEnv.selfRender (Value.struct badgeType []).Type
      = some (fun _ => .write "badge\n" (fun e => .ret e))
    ∧ (RegisterTypeRenderer (NewRenderer Buffer) badgeType customFn).Render sampleEnv 1
        (some (.struct badgeType [])) = (bufferWith "badge\n", .ok) :=
  ⟨rfl,
    (selfRender_delegates sampleEnv 0 (RegisterTypeRenderer (NewRenderer Buffer) badgeType customFn)
      (.struct badgeType []) _ rfl).1.trans rfl⟩

theorem record_rows_witness :
    renderStructLoop (Render sampleEnv 2) person personType.fields 0 false recordTable
      = ((true, { recordTable with rows := [["Name : ", "bob"]] }), .ok) :=
  (record_rows sampleEnv 2 (NewRenderer Buffer) personType
    [.string stringType "bob", .pointer (.composite "" .Ptr personType) none,
      .string stringType "x", .string stringType "y"]
    rfl rfl rfl rfl rfl (by decide)).1.trans rfl

theorem headers_are_columns_witness :
    computeHeaders animalsType.fields = ["Beaver  ", "Camel  "] :=
  (headers_are_columns (Render sampleEnv 2) animalsSlice animalsType).1.trans rfl

theorem list_rows_witness :
    buildStructList (Render sampleEnv 2) animalsSlice animalsType false
      = ({ listTable with
            headers := some ["Beaver  ", "Camel  "],
            rows := [["hello   ", "true   "], ["world   ", "false   "]] }, .ok) :=
  (list_rows sampleEnv 2 (NewRenderer Buffer) (.composite "" .Slice animalsType) animalsType
    [animals1, animals2] false (by decide)).1.trans rfl

theorem renderHumanValue_trims_witness :
    renderHumanValue (Render sampleEnv 2) (some (.string stringType " a\n b \t"))
      = (" a\n b\n", .ok) :=
  ((renderHumanValue_trims sampleEnv 2 (some (.string stringType " a\n b \t"))).1
    " a\n b \t\n" rfl).2.2.trans (by decide)

theorem stringer_renders_line_witness :
    Render sampleEnv 4 (some (.int durationType 1000000000)) = ("1s\n", .ok) :=
  (stringer_renders_line sampleEnv 0 (.int durationType 1000000000) (fun _ => "1s")
    rfl rfl rfl rfl rfl).1

theorem sequence_concat_witness :
    Render sampleEnv 4 (some wordsSlice) = ("a\nb\n", .ok) :=
  ((sequence_concat sampleEnv (.composite "" .Slice stringType) stringType
    [.string stringType "a", .string stringType "b"] (fun x => x.String ++ "\n")
    rfl rfl rfl rfl (by decide)
    (by
      intro x hx
      simp only [List.mem_cons, List.mem_singleton, List.not_mem_nil, or_false] at hx
      rcases hx with rfl | rfl
      · exact ⟨2, rfl⟩
      · exact ⟨2, rfl⟩)).2.1 2
    (by
      intro x hx
      simp only [List.mem_cons, List.mem_singleton, List.not_mem_nil, or_false] at hx
      rcases hx with rfl | rfl
      · rfl
      · rfl)).trans rfl

theorem string_renders_line_witness :
    Render sampleEnv 2 (some (.string stringType "hello")) = ("hello\n", .ok) :=
  string_renders_line sampleEnv 0 "hello" rfl rfl

theorem nil_renders_nothing_witness :
    Render sampleEnv 4 (some (nilChain [ptrTo (ptrTo personType)] (ptrTo personType)))
      = ("", .ok) :=
  (nil_renders_nothing sampleEnv 1 (NewRenderer Buffer) [ptrTo (ptrTo personType)]
    (ptrTo personType)
    (by
      intro t ht
      simp only [List.mem_cons, List.mem_singleton, List.not_mem_nil, or_false] at ht
      rcases ht with rfl | rfl
      · exact ⟨rfl, rfl, rfl, rfl⟩
      · exact ⟨rfl, rfl, rfl, rfl⟩)).2.2.2

theorem record_without_rows_witness :
    Render sampleEnv 2 (some (.struct plainType [])) = ("<struct>\n", .ok) :=
  (record_without_rows sampleEnv 0 (NewRenderer Buffer) plainType [] rfl rfl rfl rfl rfl
    (by decide)).2.2

theorem inline_cells_witness :
    renderCell (Render sampleEnv 2)
        { Name := "Tags", PkgPath := "", Type_ := ⟨.Slice⟩, Tag := [("human", "inline")] }
        tagged 1
      = ("x, y", .ok) :=
  ((inline_cells sampleEnv 2).1
    { Name := "Tags", PkgPath := "", Type_ := ⟨.Slice⟩, Tag := [("human", "inline")] }
    tagged _ 1 [.string stringType "x", .string stringType "y"] rfl rfl rfl rfl
    (by decide)).trans rfl

theorem scalars_via_fallback_witness :
    ScalarDocuments scalarEnv
    ∧ Render scalarEnv 2 (some (.bool boolType false)) = ("false\n", .ok)
    ∧ Render scalarEnv 2 (some (.int intType (-100))) = ("-100\n", .ok)
    ∧ Render scalarEnv 2 (some (.int intType 42)) = ("42\n", .ok) :=
  have hdoc : ScalarDocuments scalarEnv :=
    ⟨fun _ => rfl, fun _ => rfl,
      fun b => ⟨boolText b, rfl, by simp [scalarEnv, Prog.run, Buffer, Sink.Write, bufferWith,
        Outcome.ofErr, String_empty_append]⟩,
      fun i => ⟨decimal i, rfl, by simp [scalarEnv, Prog.run, Buffer, Sink.Write, bufferWith,
        Outcome.ofErr, String_empty_append]⟩⟩
  ⟨hdoc,
    ((scalars_via_fallback scalarEnv 0 hdoc rfl rfl rfl rfl).1 false).trans rfl,
    ((scalars_via_fallback scalarEnv 0 hdoc rfl rfl rfl rfl).2.1 (-100)).trans rfl,
    ((scalars_via_fallback scalarEnv 0 hdoc rfl rfl rfl rfl).2.1 42).trans rfl⟩

theorem first_failure_stops_witness :
    forEach (fun out y => Write methodsEnv 2 out y.Interface) [.int flakyType 0] Buffer
        = (bufferWith "fine\n", .ok)
    ∧ Write methodsEnv 2 (bufferWith "fine\n") (Value.int flakyType 1).Interface
        = (bufferWith "fine\npar", .error (.new "boom"))
    ∧ Write methodsEnv 4 Buffer (some flakySlice)
        = (bufferWith "fine\npar", .error (.new "boom")) :=
  ⟨rfl, rfl,
    (first_failure_stops methodsEnv 2 (sliceOf flakyType) flakyType [.int flakyType 0]
      (.int flakyType 1) [.int flakyType 0] Buffer (bufferWith "fine\n")
      (bufferWith "fine\npar") (.new "boom") rfl rfl rfl rfl (by decide) rfl rfl).1⟩

end Human
